import Mathlib

/-!
Verification development for the XLA `GpuCommandBuffer` (stream_executor/gpu).

The repository provides the class declarations and data-model structs in
`gpu_command_buffer.h` (and the `RocmCommandBuffer` backend adapter header).
The data structures below (`GpuGraphNodeInfo`, `GpuGraphBarrierInfo`,
`ConditionalCommandBuffers`, `ExecutionScope`, `UpdateState`, lifecycle
`State`, ownership flags, `ScopedGpuGraphExec`) are embedded directly from the
header.  Method bodies are not part of the repository sources, so their
behaviour is modelled from the design specification (each such definition is
marked `Modelled from the spec:`), staying faithful to the header's own
doc comments (e.g. the meaning of `nodes_offset` and barrier reuse).

Opaque pointer-shaped driver handles are modelled as natural-number ids
handed out by a fresh-id counter standing in for the backend driver.
-/

namespace StreamExecutor

/-- `GraphNodeHandle`: an opaque pointer-like handle identifying a graph node;
modelled as a natural-number id. -/
abbrev GraphNodeHandle := Nat

/-- The kind of command a graph node was created for.  The backend exposes
one create/update pair per kind (gpu_command_buffer.h:370-412), and each
update function returns an error when the node was not created by the
matching create function; the five condition-setting kernels are distinct
device kernels with distinct signatures (gpu_command_buffer.h:181-199), so a
conditional command of a different flavour is a different command kind. -/
inductive CommandKind where
  | kernelLaunch
  | memcpyD2D
  | memset
  | childGraph
  | conditionalNode
  | setIfCondition
  | setIfElseCondition
  | setCaseCondition
  | setForCondition
  | setWhileCondition
  deriving Repr, DecidableEq

/-- `GpuGraphNodeInfo` (gpu_command_buffer.h:61-66): "a handle to a Gpu graph
node and a metadata describing its properties".  The metadata modelled here
is the kind of command the node was created for — in the real system this is
state of the device-graph backend behind the handle, consulted by the
kind-specific `Update*Node` calls (gpu_command_buffer.h:375-412). -/
structure GpuGraphNodeInfo where
  handle : GraphNodeHandle := 0
  kind : CommandKind := CommandKind.kernelLaunch
  deriving Repr, DecidableEq

/-- `GpuGraphBarrierInfo` (gpu_command_buffer.h:70-86): a graph node acting as
a barrier.  `is_barrier_node` is true when the handle is an empty node created
specifically to act as a barrier; `nodes_offset` marks the index below which
nodes are already synchronized with this barrier. -/
structure GpuGraphBarrierInfo where
  handle : GraphNodeHandle := 0
  is_barrier_node : Bool := true
  nodes_offset : Nat := 0
  deriving Repr, DecidableEq

/-- `ConditionalCommandBuffers` (gpu_command_buffer.h:232-235): conditional
handles and nested command buffers attached to a conditional node.  Handles
and nested buffers are modelled by their ids. -/
structure ConditionalCommandBuffers where
  handles : List Nat := []
  command_buffers : List Nat := []
  deriving Repr, DecidableEq

/-- `ExecutionScope::UpdateState` (gpu_command_buffer.h:330-342): indices into
the scope's data structures during command buffer updates.  The source uses
`int64_t` indices that are only ever incremented from zero; they are modelled
as `Nat`. -/
structure UpdateState where
  node_idx : Nat := 0
  barrier_idx : Nat := 0
  conditional_idx : Nat := 0
  deriving Repr, DecidableEq

/-- `ExecutionScope` (gpu_command_buffer.h:328-357): state of the underlying
graph for a single execution scope. -/
structure ExecutionScope where
  nodes : List GpuGraphNodeInfo := []
  barriers : List GpuGraphBarrierInfo := []
  conditional_command_buffers : List ConditionalCommandBuffers := []
  update_state : UpdateState := {}
  deriving Repr, DecidableEq

/-- The offset recorded by the last barrier of a scope (`0` when there is no
barrier yet): nodes with smaller index are already synchronized
(gpu_command_buffer.h:82-85). -/
def lastBarrierOffset (s : ExecutionScope) : Nat :=
  match s.barriers.getLast? with
  | none => 0
  | some b => b.nodes_offset

/-- Modelled from the spec: `GetBarrier` (declared gpu_command_buffer.h:262)
collects the dependency set for a newly recorded command: per the data-model
invariant, consecutive recorded commands are only made dependent on the
nearest preceding barrier, so the set is the last barrier's handle (or empty
when no barrier was recorded yet). -/
def GetBarrier (s : ExecutionScope) : List GraphNodeHandle :=
  match s.barriers.getLast? with
  | none => []
  | some b => [b.handle]

/-- `GetBarrierDependencies` (declared gpu_command_buffer.h:302): collects the
dependency set for a new barrier — per the header comment on `nodes_offset`,
all nodes added after the last barrier. -/
def GetBarrierDependencies (s : ExecutionScope) : List GraphNodeHandle :=
  (s.nodes.drop (lastBarrierOffset s)).map (fun n => n.handle)

/-- Requests the command buffer issues against the device graph backend. -/
inductive BackendReq where
  /-- node creation for a recorded command (kernel / memcpy / memset / child /
  conditional node), with its dependency set -/
  | createNode (dependencies : List GraphNodeHandle)
  /-- creation of a dedicated no-op barrier node (`CreateBarrierNode`,
  gpu_command_buffer.h:298) -/
  | createBarrierNode (dependencies : List GraphNodeHandle)
  /-- parameter update of an existing node during an update pass -/
  | updateNode (handle : GraphNodeHandle)
  deriving Repr, DecidableEq

/-- Primitive per-scope recording steps that the public API operations are
composed of. -/
inductive PrimOp where
  /-- record one command node of the given kind (kernel launch, memcpy,
  memset, child graph, or the launch of a condition-setting kernel) -/
  | record (kind : CommandKind)
  /-- a `Barrier` call on the scope -/
  | barrier
  /-- creation of `num_handles` conditional nodes together with their
  `ConditionalCommandBuffers` record -/
  | condNodes (num_handles : Nat)
  deriving Repr, DecidableEq

/-- Per-scope recording state: the execution scope plus the backend's
fresh-handle counter. -/
structure ScopeSt where
  scope : ExecutionScope := {}
  fresh : Nat := 0
  deriving Repr, DecidableEq

/-- Modelled from the spec: recording one non-barrier command appends a node
whose dependency set is obtained from `GetBarrier`, and asks the backend to
materialize the node. -/
def recordNodeStep (st : ScopeSt) (kind : CommandKind) : ScopeSt × List BackendReq :=
  ({ scope := { st.scope with
        nodes := st.scope.nodes ++ [{ handle := st.fresh, kind := kind }] },
     fresh := st.fresh + 1 },
   [BackendReq.createNode (GetBarrier st.scope)])

/-- Modelled from the spec: a `Barrier` call.  If exactly one node was
recorded since the prior barrier, that node itself becomes the new barrier
(`is_barrier_node = false`, no backend request); otherwise a dedicated no-op
barrier node is created as a join point over all nodes recorded since the
previous barrier. -/
def barrierStep (st : ScopeSt) : ScopeSt × List BackendReq :=
  let deps := GetBarrierDependencies st.scope
  if deps.length = 1 then
    ({ st with scope := { st.scope with
          barriers := st.scope.barriers ++
            [{ handle := deps.headD 0, is_barrier_node := false,
               nodes_offset := st.scope.nodes.length }] } },
     [])
  else
    ({ scope := { st.scope with
          barriers := st.scope.barriers ++
            [{ handle := st.fresh, is_barrier_node := true,
               nodes_offset := st.scope.nodes.length }] },
       fresh := st.fresh + 1 },
     [BackendReq.createBarrierNode deps])

/-- Modelled from the spec: creating the conditional nodes of a conditional
command — one graph node per conditional handle, each depending on the
preceding barrier — and recording the conditional handles plus nested command
buffers into the scope's `ConditionalCommandBuffers`. -/
def condNodesStep (st : ScopeSt) (n : Nat) : ScopeSt × List BackendReq :=
  ({ scope := { st.scope with
        nodes := st.scope.nodes ++
          (List.range n).map (fun i =>
            ({ handle := st.fresh + i,
               kind := CommandKind.conditionalNode } : GpuGraphNodeInfo)),
        conditional_command_buffers := st.scope.conditional_command_buffers ++
          [{ handles := (List.range n).map (fun i => st.fresh + n + i),
             command_buffers := (List.range n).map (fun i => st.fresh + 2 * n + i) }] },
     fresh := st.fresh + 3 * n },
   (List.range n).map (fun _ => BackendReq.createNode (GetBarrier st.scope)))

/-- One primitive recording step in state `Create`. -/
def primCreate (st : ScopeSt) : PrimOp → ScopeSt × List BackendReq
  | PrimOp.record k => recordNodeStep st k
  | PrimOp.barrier => barrierStep st
  | PrimOp.condNodes n => condNodesStep st n

/-- Runs a sequence of primitive recording steps, collecting backend
requests. -/
def runPrimsCreate : List PrimOp → ScopeSt → ScopeSt × List BackendReq
  | [], st => (st, [])
  | p :: ps, st =>
    ((runPrimsCreate ps (primCreate st p).1).1,
     (primCreate st p).2 ++ (runPrimsCreate ps (primCreate st p).1).2)

/-- Number of command nodes a primitive sequence appends to the scope. -/
def nodeCount : List PrimOp → Nat
  | [] => 0
  | PrimOp.record _ :: ps => 1 + nodeCount ps
  | PrimOp.barrier :: ps => nodeCount ps
  | PrimOp.condNodes n :: ps => n + nodeCount ps

/-- Number of `Barrier` calls in a primitive sequence. -/
def barrierCalls : List PrimOp → Nat
  | [] => 0
  | PrimOp.record _ :: ps => barrierCalls ps
  | PrimOp.barrier :: ps => 1 + barrierCalls ps
  | PrimOp.condNodes _ :: ps => barrierCalls ps

/-- The per-conditional-command branch counts of a primitive sequence, in
order. -/
def condShape : List PrimOp → List Nat
  | [] => []
  | PrimOp.record _ :: ps => condShape ps
  | PrimOp.barrier :: ps => condShape ps
  | PrimOp.condNodes n :: ps => n :: condShape ps

/-- Counts the `Barrier` calls at which exactly one node had been recorded
since the previous barrier, starting with `k` nodes already recorded since
the last barrier. -/
def singleReuseFrom : Nat → List PrimOp → Nat
  | _, [] => 0
  | k, PrimOp.record _ :: ps => singleReuseFrom (k + 1) ps
  | k, PrimOp.barrier :: ps => (if k = 1 then 1 else 0) + singleReuseFrom 0 ps
  | k, PrimOp.condNodes n :: ps => singleReuseFrom (k + n) ps

/-- Counts the `Barrier` calls of a sequence at which exactly one node had
been recorded since the previous barrier. -/
def singleReuse (ps : List PrimOp) : Nat := singleReuseFrom 0 ps

/-- The number of nodes recorded since the last barrier of a scope. -/
def nodesSinceLastBarrier (s : ExecutionScope) : Nat :=
  s.nodes.length - lastBarrierOffset s

/-- Recognizes backend requests that create a dedicated barrier node. -/
def isBarrierCreationReq : BackendReq → Bool
  | BackendReq.createBarrierNode _ => true
  | _ => false

/-- Formalisation of claim C2's words: the "full set of nodes recorded since
the last barrier" in a scope. -/
def claimedCommandDependencies (s : ExecutionScope) : List GraphNodeHandle :=
  (s.nodes.drop (lastBarrierOffset s)).map (fun n => n.handle)

/-- Annotated create-mode run: each backend request paired with the execution
scope as it was when the request was issued. -/
def runPrimsCreateAnnot : List PrimOp → ScopeSt → List (ExecutionScope × BackendReq)
  | [], _ => []
  | p :: ps, st =>
    (primCreate st p).2.map (fun r => (st.scope, r)) ++
      runPrimsCreateAnnot ps (primCreate st p).1

/-- `CommandBuffer::Mode` (from the platform-neutral interface): primary
command buffers have their own executable, nested ones do not. -/
inductive Mode where
  | kPrimary
  | kNested
  deriving Repr, DecidableEq

/-- `CommandBuffer::State` lifecycle states (gpu_command_buffer.h:312 uses
`State::kCreate`): `Create` accepts new commands, `Finalized` has an
instantiated executable, `Update` replays recorded calls to patch
parameters. -/
inductive State where
  | kCreate
  | kFinalized
  | kUpdate
  deriving Repr, DecidableEq

/-- Error kinds of the design: invalid-state (operation outside its required
lifecycle state) and structural-mismatch (update pass disagreeing in shape
with the original recording). -/
inductive CmdBufError where
  | invalidState
  | structuralMismatch
  deriving Repr, DecidableEq

/-- `GpuCommandBuffer` (gpu_command_buffer.h): lifecycle state, the graph and
executable handles with their ownership flags (lines 319-323), the per-scope
execution state map (line 360), and the update counter (line 363).  The
backend driver's handle allocation is modelled by the `next_handle`
counter. -/
structure GpuCommandBuffer where
  mode : Mode := Mode.kPrimary
  state : State := State.kCreate
  graph : Option Nat := none
  is_owned_graph : Bool := true
  exec : Option Nat := none
  is_owned_graph_exec : Bool := true
  execution_scopes : List (Nat × ExecutionScope) := []
  num_updates : Nat := 0
  next_handle : Nat := 0
  deriving Repr, DecidableEq

/-- The `GpuCommandBuffer` constructor (gpu_command_buffer.h:88-89): takes the
mode, a (driver-allocated) graph handle and the graph-ownership flag; the
executable does not exist yet. -/
def makeCommandBuffer (mode : Mode) (graph : Nat) (is_owned_graph : Bool) : GpuCommandBuffer :=
  { mode := mode, state := State.kCreate, graph := some graph,
    is_owned_graph := is_owned_graph, exec := none, is_owned_graph_exec := true,
    execution_scopes := [], num_updates := 0, next_handle := graph + 1 }

/-- Inserts or replaces the entry for a scope id in the execution-scope map
(the model of `absl::flat_hash_map` assignment). -/
def upsertScope : List (Nat × ExecutionScope) → Nat → ExecutionScope →
    List (Nat × ExecutionScope)
  | [], sid, s => [(sid, s)]
  | (k, v) :: rest, sid, s =>
    if k = sid then (sid, s) :: rest else (k, v) :: upsertScope rest sid s

/-- Scope lookup: `execution_scopes_[id]` default-constructs an absent scope,
and the `const` accessors return an empty view for an absent scope. -/
def getScope (b : GpuCommandBuffer) (sid : Nat) : ExecutionScope :=
  match b.execution_scopes.lookup sid with
  | some s => s
  | none => {}

def setScope (b : GpuCommandBuffer) (sid : Nat) (s : ExecutionScope) : GpuCommandBuffer :=
  { b with execution_scopes := upsertScope b.execution_scopes sid s }

/-- Modelled from the spec: one primitive step of the update-in-place
protocol.  A replayed command fetches the record at the current cursor,
issues a backend parameter-update request and advances the cursor; a barrier
replay never creates a barrier node, it only checks the barrier cursor is in
range and advances it; a conditional replay checks the stored number of
nested command buffers matches the replayed one (`CheckNumCommandBuffers`,
gpu_command_buffer.h:294), advances the conditional cursor and skips over the
conditional nodes after verifying they are conditional nodes.  A replayed
command of a different kind than the recorded node is rejected — the backend
`Update*Node` calls return an error when the node was not created by the
matching `Create*Node` (gpu_command_buffer.h:375-412), and the spec calls a
replay differing in kind of commands a structural mismatch.  Any mismatch is
a structural-mismatch error. -/
def primUpdate (s : ExecutionScope) : PrimOp → Except CmdBufError (ExecutionScope × List BackendReq)
  | PrimOp.record k =>
    match s.nodes[s.update_state.node_idx]? with
    | some ni =>
      if ni.kind = k then
        Except.ok ({ s with update_state :=
            { s.update_state with node_idx := s.update_state.node_idx + 1 } },
          [BackendReq.updateNode ni.handle])
      else Except.error CmdBufError.structuralMismatch
    | none => Except.error CmdBufError.structuralMismatch
  | PrimOp.barrier =>
    match s.barriers[s.update_state.barrier_idx]? with
    | some _ =>
      Except.ok ({ s with update_state :=
          { s.update_state with barrier_idx := s.update_state.barrier_idx + 1 } },
        [])
    | none => Except.error CmdBufError.structuralMismatch
  | PrimOp.condNodes n =>
    match s.conditional_command_buffers[s.update_state.conditional_idx]? with
    | some cc =>
      if cc.command_buffers.length = n then
        if ((s.nodes.drop s.update_state.node_idx).take n).map (fun ni => ni.kind)
            = List.replicate n CommandKind.conditionalNode then
          Except.ok ({ s with update_state :=
              { node_idx := s.update_state.node_idx + n,
                barrier_idx := s.update_state.barrier_idx,
                conditional_idx := s.update_state.conditional_idx + 1 } },
            [])
        else Except.error CmdBufError.structuralMismatch
      else Except.error CmdBufError.structuralMismatch
    | none => Except.error CmdBufError.structuralMismatch

/-- Runs a sequence of primitive update steps on one scope. -/
def runPrimsUpdate : List PrimOp → ExecutionScope → Except CmdBufError (ExecutionScope × List BackendReq)
  | [], s => Except.ok (s, [])
  | p :: ps, s =>
    match primUpdate s p with
    | Except.error e => Except.error e
    | Except.ok (s1, r1) =>
      match runPrimsUpdate ps s1 with
      | Except.error e => Except.error e
      | Except.ok (s2, r2) => Except.ok (s2, r1 ++ r2)

/-- The public recording operations of the command buffer, each tagged with
the execution scope it records into. -/
inductive ApiCall where
  | launch (execution_scope_id : Nat)
  | memcpyD2D (execution_scope_id : Nat)
  | memset (execution_scope_id : Nat)
  | addNestedCommandBuffer (execution_scope_id : Nat)
  | barrierCall (execution_scope_id : Nat)
  | ifThen (execution_scope_id : Nat)
  | ifElseCall (execution_scope_id : Nat)
  | caseCall (execution_scope_id : Nat) (num_branches : Nat)
  | forCall (execution_scope_id : Nat)
  | whileCall (execution_scope_id : Nat)
  deriving Repr, DecidableEq

/-- The execution scope a call records into. -/
def ApiCall.scopeId : ApiCall → Nat
  | ApiCall.launch i => i
  | ApiCall.memcpyD2D i => i
  | ApiCall.memset i => i
  | ApiCall.addNestedCommandBuffer i => i
  | ApiCall.barrierCall i => i
  | ApiCall.ifThen i => i
  | ApiCall.ifElseCall i => i
  | ApiCall.caseCall i _ => i
  | ApiCall.forCall i => i
  | ApiCall.whileCall i => i

/-- Modelled from the spec: the primitive steps each public operation is
composed of.  Launch/Memcpy/Memset/AddNestedCommandBuffer record one node.
A conditional command launches its condition-setting kernel (one node), adds
a barrier between the handle update and the conditional nodes, and creates
one conditional node per branch (If: 1, IfElse: 2, Case: one per branch,
For/While: 1; For additionally records the loop-counter initialization
memset first).  Each recorded node carries the kind of the backend
`Create*Node` call that materialized it; the five conditional commands use
five distinct condition-setting kernels (gpu_command_buffer.h:181-199). -/
def ApiCall.prims : ApiCall → List PrimOp
  | ApiCall.launch _ => [PrimOp.record CommandKind.kernelLaunch]
  | ApiCall.memcpyD2D _ => [PrimOp.record CommandKind.memcpyD2D]
  | ApiCall.memset _ => [PrimOp.record CommandKind.memset]
  | ApiCall.addNestedCommandBuffer _ => [PrimOp.record CommandKind.childGraph]
  | ApiCall.barrierCall _ => [PrimOp.barrier]
  | ApiCall.ifThen _ =>
    [PrimOp.record CommandKind.setIfCondition, PrimOp.barrier, PrimOp.condNodes 1]
  | ApiCall.ifElseCall _ =>
    [PrimOp.record CommandKind.setIfElseCondition, PrimOp.barrier, PrimOp.condNodes 2]
  | ApiCall.caseCall _ n =>
    [PrimOp.record CommandKind.setCaseCondition, PrimOp.barrier, PrimOp.condNodes n]
  | ApiCall.forCall _ =>
    [PrimOp.record CommandKind.memset, PrimOp.record CommandKind.setForCondition,
     PrimOp.barrier, PrimOp.condNodes 1]
  | ApiCall.whileCall _ =>
    [PrimOp.record CommandKind.setWhileCondition, PrimOp.barrier, PrimOp.condNodes 1]

/-- Applies a create-mode recording call to the buffer (valid in state
`Create`). -/
def createCall (b : GpuCommandBuffer) (c : ApiCall) : GpuCommandBuffer × List BackendReq :=
  let res := runPrimsCreate c.prims { scope := getScope b c.scopeId, fresh := b.next_handle }
  (setScope { b with next_handle := res.1.fresh } c.scopeId res.1.scope, res.2)

/-- Applies an update-mode replay of a recording call to the buffer (valid in
state `Update`). -/
def updateCall (b : GpuCommandBuffer) (c : ApiCall) :
    Except CmdBufError (GpuCommandBuffer × List BackendReq) :=
  match runPrimsUpdate c.prims (getScope b c.scopeId) with
  | Except.error e => Except.error e
  | Except.ok (s, reqs) => Except.ok (setScope b c.scopeId s, reqs)

/-- Modelled from the spec: every public recording operation dispatches on
the lifecycle state — recording in `Create`, cursor-based parameter patching
in `Update`, and an invalid-state error in `Finalized`
(`CheckNotFinalized`, gpu_command_buffer.h:290). -/
def applyCall (b : GpuCommandBuffer) (c : ApiCall) :
    Except CmdBufError (GpuCommandBuffer × List BackendReq) :=
  match b.state with
  | State.kCreate => Except.ok (createCall b c)
  | State.kUpdate => updateCall b c
  | State.kFinalized => Except.error CmdBufError.invalidState

/-- Pure create-mode fold over a call sequence (agrees with `applyCall` while
the buffer stays in state `Create`). -/
def recordCalls : GpuCommandBuffer → List ApiCall → GpuCommandBuffer × List BackendReq
  | b, [] => (b, [])
  | b, c :: cs =>
    ((recordCalls (createCall b c).1 cs).1,
     (createCall b c).2 ++ (recordCalls (createCall b c).1 cs).2)

/-- Replays a call sequence through the state-dispatching `applyCall`. -/
def replayCalls : GpuCommandBuffer → List ApiCall → Except CmdBufError (GpuCommandBuffer × List BackendReq)
  | b, [] => Except.ok (b, [])
  | b, c :: cs =>
    match applyCall b c with
    | Except.error e => Except.error e
    | Except.ok (b1, r1) =>
      match replayCalls b1 cs with
      | Except.error e => Except.error e
      | Except.ok (b2, r2) => Except.ok (b2, r1 ++ r2)

/-- Whether a scope's update cursors have reached the end of its recorded
node, barrier and conditional lists. -/
def scopeUpdateDone (s : ExecutionScope) : Bool :=
  s.update_state.node_idx == s.nodes.length &&
  s.update_state.barrier_idx == s.barriers.length &&
  s.update_state.conditional_idx == s.conditional_command_buffers.length

/-- Modelled from the spec: `Finalize` instantiates the graph into an
executable from state `Create`; at the end of an update pass it requires every
scope's cursors to have reached exactly the positions the original recording
produced (otherwise the update disagrees in shape with the recording and
fails with a structural mismatch), and transitions back to `Finalized`. -/
def Finalize (b : GpuCommandBuffer) : Except CmdBufError GpuCommandBuffer :=
  match b.state with
  | State.kCreate =>
    Except.ok { b with
        state := State.kFinalized, exec := some b.next_handle,
        next_handle := b.next_handle + 1 }
  | State.kUpdate =>
    if b.execution_scopes.all (fun kv => scopeUpdateDone kv.2) then
      Except.ok { b with state := State.kFinalized }
    else Except.error CmdBufError.structuralMismatch
  | State.kFinalized => Except.error CmdBufError.invalidState

/-- Resets a scope's update cursors to zero. -/
def resetUpdateState (s : ExecutionScope) : ExecutionScope :=
  { s with update_state := {} }

/-- Modelled from the spec: `Update` requires a finalized buffer and starts a
new update pass: all per-scope cursors are reset to zero and the state
becomes `Update`. -/
def Update (b : GpuCommandBuffer) : Except CmdBufError GpuCommandBuffer :=
  match b.state with
  | State.kFinalized =>
    Except.ok { b with
        state := State.kUpdate,
        execution_scopes := b.execution_scopes.map (fun kv => (kv.1, resetUpdateState kv.2)),
        num_updates := b.num_updates + 1 }
  | _ => Except.error CmdBufError.invalidState

/-- Records a call sequence into a fresh primary command buffer and finalizes
it. -/
def recordAndFinalize (calls : List ApiCall) : Except CmdBufError GpuCommandBuffer :=
  Finalize (recordCalls (makeCommandBuffer Mode.kPrimary 0 true) calls).1

/-- A complete update pass: begin the update, replay the call sequence, and
finalize again. -/
def updatePass (b : GpuCommandBuffer) (calls : List ApiCall) :
    Except CmdBufError (GpuCommandBuffer × List BackendReq) :=
  match Update b with
  | Except.error e => Except.error e
  | Except.ok b1 =>
    match replayCalls b1 calls with
    | Except.error e => Except.error e
    | Except.ok (b2, reqs) =>
      match Finalize b2 with
      | Except.error e => Except.error e
      | Except.ok b3 => Except.ok (b3, reqs)

/-- The primitive steps a call sequence records into one given scope, in
order. -/
def scopePrims : List ApiCall → Nat → List PrimOp
  | [], _ => []
  | c :: cs, sid =>
    (if c.scopeId = sid then c.prims else []) ++ scopePrims cs sid

/-- The branch counts stored in a scope's conditional command buffers. -/
def condCounts (s : ExecutionScope) : List Nat :=
  s.conditional_command_buffers.map (fun cc => cc.command_buffers.length)

/-- The kinds of the command nodes a primitive sequence appends to a scope,
in order: one per recorded command, and one `conditionalNode` per conditional
graph node. -/
def nodeKinds : List PrimOp → List CommandKind
  | [] => []
  | PrimOp.record k :: ps => k :: nodeKinds ps
  | PrimOp.barrier :: ps => nodeKinds ps
  | PrimOp.condNodes n :: ps =>
    List.replicate n CommandKind.conditionalNode ++ nodeKinds ps

/-- The kinds of the nodes recorded in a scope, in order. -/
def scopeNodeKinds (s : ExecutionScope) : List CommandKind :=
  s.nodes.map (fun ni => ni.kind)

/-- Recognizes backend parameter-update requests. -/
def isUpdateReq : BackendReq → Bool
  | BackendReq.updateNode _ => true
  | _ => false

/-- Modelled from the spec: the `IfElse` condition-setting device kernel
(`SetIfElseConditionKernel`, gpu_command_buffer.h:184-186) reads the boolean
predicate from device memory and assigns complementary truth values to the
then-handle and the else-handle. -/
def SetIfElseCondition (predicate : Bool) : Bool × Bool :=
  (predicate, !predicate)

/-- Modelled from the spec: a conditional node executes its attached nested
graph at an invocation iff its conditional handle is set. -/
def conditionalNodeFires (handle_value : Bool) : Bool := handle_value

/-- The nested command buffers (identified by ids) executed by one graph
invocation of an `IfElse` command, given the predicate value. -/
def ifElseExecutedBuffers (predicate : Bool) (then_buffer else_buffer : Nat) : List Nat :=
  (if conditionalNodeFires (SetIfElseCondition predicate).1 then [then_buffer] else []) ++
  (if conditionalNodeFires (SetIfElseCondition predicate).2 then [else_buffer] else [])

/-- Modelled from the spec: the `Case` condition-setting device kernel
(`SetCaseConditionKernel`, gpu_command_buffer.h:188-193) reads an `int32`
index from device memory; an index outside `[0, branch_count)` falls through
deterministically to the default/last branch.  Returns the selected branch. -/
def SetCaseCondition (branch_count : Nat) (index : Int) : Nat :=
  if 0 ≤ index ∧ index < (branch_count : Int) then index.toNat else branch_count - 1

/-- The conditional-handle assignment made by the `Case` kernel: handle `i`
is set iff `i` is the selected branch, so only the selected arm's conditional
node fires. -/
def caseHandleValues (branch_count : Nat) (index : Int) : List Bool :=
  (List.range branch_count).map (fun i => i == SetCaseCondition branch_count index)

/-- A device resource released by the `GpuCommandBuffer` destructor. -/
inductive ReleasedResource where
  | graphResource (handle : Nat)
  | execResource (handle : Nat)
  deriving Repr, DecidableEq

/-- Modelled from the spec: the destructor (`~GpuCommandBuffer`,
gpu_command_buffer.h:90) releases the executable if one exists and is owned
(`is_owned_graph_exec_`), and releases the graph if one exists and is owned
(`is_owned_graph_`); borrowed resources are never released. -/
def destroyCommandBuffer (b : GpuCommandBuffer) : List ReleasedResource :=
  (match b.exec with
   | some e => if b.is_owned_graph_exec then [ReleasedResource.execResource e] else []
   | none => []) ++
  (match b.graph with
   | some g => if b.is_owned_graph then [ReleasedResource.graphResource g] else []
   | none => [])

/-- `ScopedGpuGraphExec` (gpu_command_buffer.h:221-228): saved executable
handle and ownership flag to restore when the scope exits. -/
structure ScopedGpuGraphExec where
  restore : Option Nat
  restore_is_owned : Bool
  deriving Repr, DecidableEq

/-- Modelled from the spec: the `ScopedGpuGraphExec` constructor saves the
current executable handle and its ownership flag, then overwrites the
buffer's executable with the given handle (not owned). -/
def scopedGraphExecEnter (b : GpuCommandBuffer) (exec : Nat) :
    ScopedGpuGraphExec × GpuCommandBuffer :=
  ({ restore := b.exec, restore_is_owned := b.is_owned_graph_exec },
   { b with exec := some exec, is_owned_graph_exec := false })

/-- Modelled from the spec: the `ScopedGpuGraphExec` destructor restores the
saved executable handle and ownership flag unconditionally. -/
def scopedGraphExecExit (g : ScopedGpuGraphExec) (b : GpuCommandBuffer) : GpuCommandBuffer :=
  { b with exec := g.restore, is_owned_graph_exec := g.restore_is_owned }

/-- Runs a body (e.g. the conditional-update recursion into a nested command
buffer) under a scoped temporary executable substitution.  The body threads
the buffer state and may fail; the guard's restore runs in either case. -/
def withScopedGraphExec (b : GpuCommandBuffer) (exec : Nat)
    (body : GpuCommandBuffer → GpuCommandBuffer × Except CmdBufError Unit) :
    GpuCommandBuffer × Except CmdBufError Unit :=
  let enter := scopedGraphExecEnter b exec
  let res := body enter.2
  (scopedGraphExecExit enter.1 res.1, res.2)

/-- `kDefaulExecutionScope` from the platform-neutral `CommandBuffer`
interface: the default execution scope id, modelled as scope `0` (the name
retains the source's spelling). -/
def kDefaulExecutionScope : Nat := 0

/-- The introspection accessor `nodes(ExecutionScopeId)`
(gpu_command_buffer.h:153): the ordered node list of one scope, empty for a
scope that was never recorded into. -/
def GpuCommandBuffer.nodesOf (b : GpuCommandBuffer) (id : Nat) : List GpuGraphNodeInfo :=
  (getScope b id).nodes

/-- The introspection accessor `barriers(ExecutionScopeId)`
(gpu_command_buffer.h:154). -/
def GpuCommandBuffer.barriersOf (b : GpuCommandBuffer) (id : Nat) : List GpuGraphBarrierInfo :=
  (getScope b id).barriers

/-- The zero-argument accessor `nodes()` (gpu_command_buffer.h:156-158):
returns `nodes(kDefaulExecutionScope)`. -/
def GpuCommandBuffer.defaultNodes (b : GpuCommandBuffer) : List GpuGraphNodeInfo :=
  b.nodesOf kDefaulExecutionScope

/-- The zero-argument accessor `barriers()` (gpu_command_buffer.h:160-162):
returns `barriers(kDefaulExecutionScope)`. -/
def GpuCommandBuffer.defaultBarriers (b : GpuCommandBuffer) : List GpuGraphBarrierInfo :=
  b.barriersOf kDefaulExecutionScope

theorem lastBarrierOffset_concat (s : ExecutionScope) (ns : List GpuGraphNodeInfo)
    (cs : List ConditionalCommandBuffers) (b : GpuGraphBarrierInfo) :
    lastBarrierOffset { s with nodes := s.nodes ++ ns,
                               conditional_command_buffers := s.conditional_command_buffers ++ cs,
                               barriers := s.barriers ++ [b] } = b.nodes_offset := by
  simp [lastBarrierOffset]

theorem lastBarrierOffset_nodes (s : ExecutionScope) (ns : List GpuGraphNodeInfo)
    (cs : List ConditionalCommandBuffers) :
    lastBarrierOffset { s with nodes := s.nodes ++ ns,
                               conditional_command_buffers := s.conditional_command_buffers ++ cs } =
      lastBarrierOffset s := by
  simp [lastBarrierOffset]

theorem getBarrierDependencies_length (s : ExecutionScope) :
    (GetBarrierDependencies s).length = nodesSinceLastBarrier s := by
  simp [GetBarrierDependencies, nodesSinceLastBarrier]

/-- Core bookkeeping invariant of the create-mode run, by induction over the
primitive sequence: barrier records are appended one per `Barrier` call, and
the dedicated barrier nodes created account for exactly the calls at which
the number of nodes since the previous barrier was not one. -/
theorem runPrimsCreate_barrier_stats (ps : List PrimOp) :
    ∀ st : ScopeSt, lastBarrierOffset st.scope ≤ st.scope.nodes.length →
      lastBarrierOffset (runPrimsCreate ps st).1.scope ≤
          (runPrimsCreate ps st).1.scope.nodes.length ∧
      (runPrimsCreate ps st).1.scope.barriers.length
          = st.scope.barriers.length + barrierCalls ps ∧
      ((runPrimsCreate ps st).1.scope.barriers.filter (fun b => b.is_barrier_node)).length
            + singleReuseFrom (nodesSinceLastBarrier st.scope) ps
          = (st.scope.barriers.filter (fun b => b.is_barrier_node)).length + barrierCalls ps ∧
      ((runPrimsCreate ps st).2.filter isBarrierCreationReq).length
            + singleReuseFrom (nodesSinceLastBarrier st.scope) ps
          = barrierCalls ps := by
  induction ps with
  | nil =>
    intro st hwf
    simpa [runPrimsCreate, barrierCalls, singleReuseFrom] using hwf
  | cons p ps ih =>
    intro st hwf
    cases p with
    | record k =>
      have hoff : lastBarrierOffset (primCreate st (PrimOp.record k)).1.scope
          = lastBarrierOffset st.scope := by
        simp [primCreate, recordNodeStep, lastBarrierOffset]
      have hlen : (primCreate st (PrimOp.record k)).1.scope.nodes.length
          = st.scope.nodes.length + 1 := by
        simp [primCreate, recordNodeStep]
      have hbar : (primCreate st (PrimOp.record k)).1.scope.barriers = st.scope.barriers := by
        simp [primCreate, recordNodeStep]
      have hwf1 : lastBarrierOffset (primCreate st (PrimOp.record k)).1.scope ≤
          (primCreate st (PrimOp.record k)).1.scope.nodes.length := by
        rw [hoff, hlen]; omega
      have hsince : nodesSinceLastBarrier (primCreate st (PrimOp.record k)).1.scope
          = nodesSinceLastBarrier st.scope + 1 := by
        simp only [nodesSinceLastBarrier, hoff, hlen]
        unfold lastBarrierOffset at hwf
        unfold lastBarrierOffset
        omega
      have htr : (primCreate st (PrimOp.record k)).2.filter isBarrierCreationReq = [] := by
        simp [primCreate, recordNodeStep, isBarrierCreationReq]
      have h := ih (primCreate st (PrimOp.record k)).1 hwf1
      rw [hsince] at h
      simp only [runPrimsCreate, barrierCalls, singleReuseFrom, List.filter_append, htr,
        List.nil_append]
      refine ⟨h.1, ?_, ?_, h.2.2.2⟩
      · rw [h.2.1, hbar]
      · rw [h.2.2.1, hbar]
    | barrier =>
      by_cases hone : (GetBarrierDependencies st.scope).length = 1
      · -- single-node reuse: no dedicated barrier node
        have hone' : nodesSinceLastBarrier st.scope = 1 := by
          rw [← getBarrierDependencies_length]; exact hone
        have hstep : primCreate st PrimOp.barrier
            = ({ st with scope := { st.scope with
                  barriers := st.scope.barriers ++
                    [{ handle := (GetBarrierDependencies st.scope).headD 0,
                       is_barrier_node := false,
                       nodes_offset := st.scope.nodes.length }] } }, []) := by
          simp [primCreate, barrierStep, hone]
        have hoff : lastBarrierOffset (primCreate st PrimOp.barrier).1.scope
            = st.scope.nodes.length := by
          rw [hstep]; simp [lastBarrierOffset]
        have hlen : (primCreate st PrimOp.barrier).1.scope.nodes.length
            = st.scope.nodes.length := by
          rw [hstep]
        have hbar : (primCreate st PrimOp.barrier).1.scope.barriers
            = st.scope.barriers ++
                [{ handle := (GetBarrierDependencies st.scope).headD 0,
                   is_barrier_node := false,
                   nodes_offset := st.scope.nodes.length }] := by
          rw [hstep]
        have hwf1 : lastBarrierOffset (primCreate st PrimOp.barrier).1.scope ≤
            (primCreate st PrimOp.barrier).1.scope.nodes.length := by
          rw [hoff, hlen]
        have hsince : nodesSinceLastBarrier (primCreate st PrimOp.barrier).1.scope = 0 := by
          simp [nodesSinceLastBarrier, hoff, hlen]
        have htr : (primCreate st PrimOp.barrier).2.filter isBarrierCreationReq = [] := by
          rw [hstep]; simp
        have h := ih (primCreate st PrimOp.barrier).1 hwf1
        rw [hsince] at h
        simp only [runPrimsCreate, barrierCalls, singleReuseFrom, List.filter_append, htr,
          List.nil_append]
        rw [if_pos hone']
        have e2 : (primCreate st PrimOp.barrier).1.scope.barriers.length
            = st.scope.barriers.length + 1 := by
          rw [hbar]; simp
        have e3 : (List.filter (fun b => b.is_barrier_node)
              (primCreate st PrimOp.barrier).1.scope.barriers).length
            = (List.filter (fun b => b.is_barrier_node) st.scope.barriers).length := by
          rw [hbar]; simp
        refine ⟨h.1, ?_, ?_, ?_⟩
        · have e1 := h.2.1
          omega
        · have e1 := h.2.2.1
          omega
        · have e1 := h.2.2.2
          omega
      · -- zero or several nodes since the last barrier: dedicated barrier node
        have hone' : ¬ nodesSinceLastBarrier st.scope = 1 := by
          rw [← getBarrierDependencies_length]; exact hone
        have hstep : primCreate st PrimOp.barrier
            = ({ scope := { st.scope with
                  barriers := st.scope.barriers ++
                    [{ handle := st.fresh, is_barrier_node := true,
                       nodes_offset := st.scope.nodes.length }] },
                 fresh := st.fresh + 1 },
               [BackendReq.createBarrierNode (GetBarrierDependencies st.scope)]) := by
          simp [primCreate, barrierStep, hone]
        have hoff : lastBarrierOffset (primCreate st PrimOp.barrier).1.scope
            = st.scope.nodes.length := by
          rw [hstep]; simp [lastBarrierOffset]
        have hlen : (primCreate st PrimOp.barrier).1.scope.nodes.length
            = st.scope.nodes.length := by
          rw [hstep]
        have hbar : (primCreate st PrimOp.barrier).1.scope.barriers
            = st.scope.barriers ++
                [{ handle := st.fresh, is_barrier_node := true,
                   nodes_offset := st.scope.nodes.length }] := by
          rw [hstep]
        have hwf1 : lastBarrierOffset (primCreate st PrimOp.barrier).1.scope ≤
            (primCreate st PrimOp.barrier).1.scope.nodes.length := by
          rw [hoff, hlen]
        have hsince : nodesSinceLastBarrier (primCreate st PrimOp.barrier).1.scope = 0 := by
          simp [nodesSinceLastBarrier, hoff, hlen]
        have htr : (primCreate st PrimOp.barrier).2.filter isBarrierCreationReq
            = [BackendReq.createBarrierNode (GetBarrierDependencies st.scope)] := by
          rw [hstep]; simp [isBarrierCreationReq]
        have h := ih (primCreate st PrimOp.barrier).1 hwf1
        rw [hsince] at h
        simp only [runPrimsCreate, barrierCalls, singleReuseFrom, List.filter_append, htr]
        rw [if_neg hone']
        have e2 : (primCreate st PrimOp.barrier).1.scope.barriers.length
            = st.scope.barriers.length + 1 := by
          rw [hbar]; simp
        have e3 : (List.filter (fun b => b.is_barrier_node)
              (primCreate st PrimOp.barrier).1.scope.barriers).length
            = (List.filter (fun b => b.is_barrier_node) st.scope.barriers).length + 1 := by
          rw [hbar]; simp
        refine ⟨h.1, ?_, ?_, ?_⟩
        · have e1 := h.2.1
          omega
        · have e1 := h.2.2.1
          omega
        · have e1 := h.2.2.2
          simp only [List.singleton_append, List.length_cons, List.length_append]
          omega
    | condNodes n =>
      have hoff : lastBarrierOffset (primCreate st (PrimOp.condNodes n)).1.scope
          = lastBarrierOffset st.scope := by
        simp [primCreate, condNodesStep, lastBarrierOffset]
      have hlen : (primCreate st (PrimOp.condNodes n)).1.scope.nodes.length
          = st.scope.nodes.length + n := by
        simp [primCreate, condNodesStep]
      have hbar : (primCreate st (PrimOp.condNodes n)).1.scope.barriers
          = st.scope.barriers := by
        simp [primCreate, condNodesStep]
      have hwf1 : lastBarrierOffset (primCreate st (PrimOp.condNodes n)).1.scope ≤
          (primCreate st (PrimOp.condNodes n)).1.scope.nodes.length := by
        rw [hoff, hlen]; omega
      have hsince : nodesSinceLastBarrier (primCreate st (PrimOp.condNodes n)).1.scope
          = nodesSinceLastBarrier st.scope + n := by
        simp only [nodesSinceLastBarrier, hoff, hlen]
        unfold lastBarrierOffset at hwf
        unfold lastBarrierOffset
        omega
      have htr : (primCreate st (PrimOp.condNodes n)).2.filter isBarrierCreationReq = [] := by
        simp only [primCreate, condNodesStep]
        refine List.filter_eq_nil_iff.mpr ?_
        intro a ha
        rcases List.mem_map.mp ha with ⟨i, _, rfl⟩
        simp [isBarrierCreationReq]
      have h := ih (primCreate st (PrimOp.condNodes n)).1 hwf1
      rw [hsince] at h
      simp only [runPrimsCreate, barrierCalls, singleReuseFrom, List.filter_append, htr,
        List.nil_append]
      refine ⟨h.1, ?_, ?_, h.2.2.2⟩
      · rw [h.2.1, hbar]
      · rw [h.2.2.1, hbar]

/-- Every backend request of a create-mode run, paired with the scope snapshot
at which it was issued: command-node creations carry the `GetBarrier`
dependency set of the snapshot; dedicated barrier-node creations carry the
`GetBarrierDependencies` set of the snapshot. -/
theorem runPrimsCreateAnnot_deps (ps : List PrimOp) :
    ∀ st : ScopeSt, ∀ pre r, (pre, r) ∈ runPrimsCreateAnnot ps st →
      (∀ deps, r = BackendReq.createNode deps → deps = GetBarrier pre) ∧
      (∀ deps, r = BackendReq.createBarrierNode deps → deps = GetBarrierDependencies pre) := by
  induction ps with
  | nil =>
    intro st pre r hmem
    simp [runPrimsCreateAnnot] at hmem
  | cons p ps ih =>
    intro st pre r hmem
    simp only [runPrimsCreateAnnot, List.mem_append] at hmem
    rcases hmem with hmem | hmem
    · rcases List.mem_map.mp hmem with ⟨r0, hr0, heq⟩
      obtain ⟨rfl, rfl⟩ : pre = st.scope ∧ r = r0 := by
        constructor
        · exact (congrArg Prod.fst heq).symm
        · exact (congrArg Prod.snd heq).symm
      cases p with
      | record k =>
        simp only [primCreate, recordNodeStep, List.mem_singleton] at hr0
        subst hr0
        constructor
        · intro deps hdeps
          cases hdeps
          rfl
        · intro deps hdeps
          cases hdeps
      | barrier =>
        by_cases hone : (GetBarrierDependencies st.scope).length = 1
        · simp [primCreate, barrierStep, hone] at hr0
        · simp only [primCreate, barrierStep, if_neg hone, List.mem_singleton] at hr0
          subst hr0
          constructor
          · intro deps hdeps
            cases hdeps
          · intro deps hdeps
            cases hdeps
            rfl
      | condNodes n =>
        simp only [primCreate, condNodesStep, List.mem_map] at hr0
        rcases hr0 with ⟨i, _, hr0⟩
        subst hr0
        constructor
        · intro deps hdeps
          cases hdeps
          rfl
        · intro deps hdeps
          cases hdeps
    · exact ih (primCreate st p).1 pre r hmem

/-- `GetBarrier` is empty without a prior barrier and otherwise the last
barrier's handle alone. -/
theorem getBarrier_cases (s : ExecutionScope) :
    (s.barriers = [] → GetBarrier s = []) ∧
    (∀ b, s.barriers.getLast? = some b → GetBarrier s = [b.handle]) ∧
    (GetBarrier s).length ≤ 1 := by
  refine ⟨?_, ?_, ?_⟩
  · intro h
    simp [GetBarrier, h]
  · intro b hb
    simp [GetBarrier, hb]
  · unfold GetBarrier
    cases s.barriers.getLast? <;> simp

/-- C1: for every sequence of recorded commands in one execution scope, each
`Barrier` call appends exactly one barrier record, a dedicated no-op barrier
node is created only when the number of nodes recorded since the previous
barrier is not exactly one, and the total number of barrier nodes created
equals the number of `Barrier` calls minus the count of single-node reuse
cases (in particular it never exceeds the number of calls). -/
theorem barrier_node_creation_count (ps : List PrimOp) :
    (runPrimsCreate ps {}).1.scope.barriers.length = barrierCalls ps ∧
    ((runPrimsCreate ps {}).1.scope.barriers.filter (fun b => b.is_barrier_node)).length
        + singleReuse ps = barrierCalls ps ∧
    ((runPrimsCreate ps {}).2.filter isBarrierCreationReq).length
        = barrierCalls ps - singleReuse ps ∧
    ((runPrimsCreate ps {}).2.filter isBarrierCreationReq).length ≤ barrierCalls ps := by
  have h := runPrimsCreate_barrier_stats ps {} (by simp [lastBarrierOffset])
  have hsince : nodesSinceLastBarrier ({} : ScopeSt).scope = 0 := by
    simp [nodesSinceLastBarrier, lastBarrierOffset]
  rw [hsince] at h
  have h1 := h.2.1
  have h2 := h.2.2.1
  have h3 := h.2.2.2
  simp only [ScopeSt.scope] at h1 h2 h3
  unfold singleReuse
  refine ⟨?_, ?_, ?_, ?_⟩ <;> simp only [List.length_nil, List.filter_nil] at h1 h2 h3 <;> omega

/-- C2 as stated is false: the dependency set passed to the backend for a
non-barrier command is not the full set of nodes recorded since the last
barrier.  Concretely, when a second command is recorded right after a first
one (no barrier in between), the backend receives the empty dependency set,
while the set of nodes recorded since the last barrier is `[0]`. -/
theorem command_dependency_full_set_counterexample :
    ((runPrimsCreate [PrimOp.record CommandKind.kernelLaunch] {}).1.scope,
        BackendReq.createNode [])
        ∈ runPrimsCreateAnnot
          [PrimOp.record CommandKind.kernelLaunch, PrimOp.record CommandKind.kernelLaunch] {} ∧
    claimedCommandDependencies
        (runPrimsCreate [PrimOp.record CommandKind.kernelLaunch] {}).1.scope = [0] ∧
    ([] : List GraphNodeHandle) ≠ [0] := by
  refine ⟨by decide, by decide, by decide⟩

/-- C2 (amended): for every recording sequence, the dependency set passed to
the backend when creating a non-barrier command node is the nearest preceding
barrier's handle (or empty when no barrier was recorded yet, never more than
one handle), and the full set of nodes recorded since the last barrier is
instead the dependency set passed when creating the next dedicated barrier
node. -/
theorem command_dependency_sets_amended (ps : List PrimOp) (pre : ExecutionScope)
    (r : BackendReq) (hmem : (pre, r) ∈ runPrimsCreateAnnot ps {}) :
    (∀ deps, r = BackendReq.createNode deps →
        deps = GetBarrier pre ∧ deps.length ≤ 1 ∧
        (∀ b, pre.barriers.getLast? = some b → deps = [b.handle]) ∧
        (pre.barriers = [] → deps = [])) ∧
    (∀ deps, r = BackendReq.createBarrierNode deps →
        deps = claimedCommandDependencies pre) := by
  have h := runPrimsCreateAnnot_deps ps {} pre r hmem
  constructor
  · intro deps hdeps
    have hd := h.1 deps hdeps
    have hc := getBarrier_cases pre
    subst hd
    exact ⟨rfl, hc.2.2, fun b hb => hc.2.1 b hb, hc.1⟩
  · intro deps hdeps
    exact h.2 deps hdeps

/-- Witness for the amended C2 at a concrete input: in the recording
`[record, record, barrier]` the dedicated barrier node is created with the
full set of nodes recorded since the last barrier as its dependencies, and
the two command nodes are created with at most one dependency. -/
theorem command_dependency_sets_amended_witness :
    ([0, 1] : List GraphNodeHandle)
      = claimedCommandDependencies
          (runPrimsCreate [PrimOp.record CommandKind.kernelLaunch,
            PrimOp.record CommandKind.kernelLaunch] {}).1.scope :=
  (command_dependency_sets_amended
      [PrimOp.record CommandKind.kernelLaunch, PrimOp.record CommandKind.kernelLaunch,
        PrimOp.barrier]
      (runPrimsCreate [PrimOp.record CommandKind.kernelLaunch,
        PrimOp.record CommandKind.kernelLaunch] {}).1.scope
      (BackendReq.createBarrierNode [0, 1]) (by decide)).2 [0, 1] rfl

/-- Concatenation of update-prim runs: running `xs ++ ys` is running `xs`,
then `ys` from the resulting scope, concatenating the requests. -/
theorem runPrimsUpdate_append (xs ys : List PrimOp) :
    ∀ s : ExecutionScope,
      runPrimsUpdate (xs ++ ys) s =
        match runPrimsUpdate xs s with
        | Except.error e => Except.error e
        | Except.ok (s1, r1) =>
          match runPrimsUpdate ys s1 with
          | Except.error e => Except.error e
          | Except.ok (s2, r2) => Except.ok (s2, r1 ++ r2) := by
  induction xs with
  | nil =>
    intro s
    simp only [List.nil_append, runPrimsUpdate]
    cases runPrimsUpdate ys s with
    | error e => rfl
    | ok v => simp
  | cons p xs ih =>
    intro s
    simp only [List.cons_append, runPrimsUpdate]
    cases primUpdate s p with
    | error e => rfl
    | ok v =>
      obtain ⟨s1, r1⟩ := v
      dsimp only
      rw [show xs.append ys = xs ++ ys from rfl, ih s1]
      cases hx : runPrimsUpdate xs s1 with
      | error e => simp [hx]
      | ok v1 =>
        obtain ⟨s2, r2⟩ := v1
        cases hy : runPrimsUpdate ys s2 with
        | error e => simp [hx, hy]
        | ok v2 =>
          obtain ⟨s3, r3⟩ := v2
          simp [hx, hy, List.append_assoc]

/-- Constructive success of the update replay on one scope: when the cursors
have enough room in the recorded lists, the stored conditional branch counts
continue with the replayed conditional shape, and the recorded node kinds
continue with the replayed command kinds, the replay succeeds, advances the
cursors by the replayed counts, leaves the recorded lists untouched, and
issues only parameter-update requests. -/
theorem runPrimsUpdate_ok_of (ps : List PrimOp) :
    ∀ (s : ExecutionScope) (a b c : Nat),
      s.update_state = ⟨a, b, c⟩ →
      a + nodeCount ps ≤ s.nodes.length →
      b + barrierCalls ps ≤ s.barriers.length →
      (∃ tail, (condCounts s).drop c = condShape ps ++ tail) →
      (∃ ktail, (scopeNodeKinds s).drop a = nodeKinds ps ++ ktail) →
      ∃ reqs, runPrimsUpdate ps s = Except.ok
        ({ s with update_state :=
            ⟨a + nodeCount ps, b + barrierCalls ps, c + (condShape ps).length⟩ }, reqs) ∧
        reqs.all isUpdateReq = true := by
  induction ps with
  | nil =>
    intro s a b c hs _ _ _ _
    refine ⟨[], ?_, rfl⟩
    simp only [runPrimsUpdate, nodeCount, barrierCalls, condShape, List.length_nil,
      Nat.add_zero, ← hs]
  | cons p ps ih =>
    intro s a b c hs hn hb hc hk
    cases p with
    | record k =>
      have hlt : a < s.nodes.length := by
        simp only [nodeCount] at hn
        omega
      obtain ⟨ni, hni⟩ : ∃ ni, s.nodes[a]? = some ni := ⟨_, List.getElem?_eq_getElem hlt⟩
      obtain ⟨ktail, hkt⟩ := hk
      simp only [nodeKinds, List.cons_append] at hkt
      have hk0 : (scopeNodeKinds s)[a]? = some k := by
        have h0 : ((scopeNodeKinds s).drop a)[0]? = some k := by
          rw [hkt]
          simp
        rwa [List.getElem?_drop, Nat.add_zero] at h0
      have hkind : ni.kind = k := by
        have h1 : (s.nodes.map (fun ni => ni.kind))[a]? = some k := hk0
        rw [List.getElem?_map, hni] at h1
        simpa using h1
      have hstep : primUpdate s (PrimOp.record k) = Except.ok
          ({ s with update_state := ⟨a + 1, b, c⟩ }, [BackendReq.updateNode ni.handle]) := by
        simp [primUpdate, hs, hni, hkind]
      obtain ⟨reqs, hrun, hall⟩ := ih ({ s with update_state := ⟨a + 1, b, c⟩ })
        (a + 1) b c rfl
        (by simp only [nodeCount] at hn; simpa using by omega)
        (by simpa using hb)
        (by simpa [condCounts] using hc)
        (by
          refine ⟨ktail, ?_⟩
          have hdr : (scopeNodeKinds s).drop (a + 1) = nodeKinds ps ++ ktail := by
            rw [← List.tail_drop, hkt]
            simp
          simpa [scopeNodeKinds] using hdr)
      refine ⟨[BackendReq.updateNode ni.handle] ++ reqs, ?_, ?_⟩
      · simp only [runPrimsUpdate, hstep, hrun]
        have e : a + (1 + nodeCount ps) = a + 1 + nodeCount ps := by omega
        simp [nodeCount, barrierCalls, condShape, e]
      · simpa [isUpdateReq] using hall
    | barrier =>
      have hlt : b < s.barriers.length := by
        simp only [barrierCalls] at hb
        omega
      obtain ⟨bi, hbi⟩ : ∃ bi, s.barriers[b]? = some bi := ⟨_, List.getElem?_eq_getElem hlt⟩
      have hstep : primUpdate s PrimOp.barrier = Except.ok
          ({ s with update_state := ⟨a, b + 1, c⟩ }, []) := by
        simp [primUpdate, hs, hbi]
      obtain ⟨reqs, hrun, hall⟩ := ih ({ s with update_state := ⟨a, b + 1, c⟩ })
        a (b + 1) c rfl
        (by simpa using hn)
        (by simp only [barrierCalls] at hb; simpa using by omega)
        (by simpa [condCounts] using hc)
        (by simpa [scopeNodeKinds, nodeKinds] using hk)
      refine ⟨reqs, ?_, hall⟩
      simp only [runPrimsUpdate, hstep, hrun]
      have e : b + (1 + barrierCalls ps) = b + 1 + barrierCalls ps := by omega
      simp [nodeCount, barrierCalls, condShape, e]
    | condNodes n =>
      obtain ⟨tail, htail⟩ := hc
      simp only [condShape] at htail
      have hcc0 : (condCounts s)[c]? = some n := by
        have h0 : ((condCounts s).drop c)[0]? = some n := by
          rw [htail]; simp
        rwa [List.getElem?_drop, Nat.add_zero] at h0
      have hccm : (s.conditional_command_buffers.map
            (fun cc => cc.command_buffers.length))[c]? = some n := hcc0
      rw [List.getElem?_map] at hccm
      obtain ⟨cc, hcc, hlen⟩ := Option.map_eq_some'.mp hccm
      obtain ⟨ktail, hkt⟩ := hk
      simp only [nodeKinds] at hkt
      rw [List.append_assoc] at hkt
      have hkchk : ((s.nodes.drop a).take n).map (fun ni => ni.kind)
          = List.replicate n CommandKind.conditionalNode := by
        rw [List.map_take, List.map_drop]
        have : (s.nodes.map fun ni => ni.kind) = scopeNodeKinds s := rfl
        rw [this, hkt]
        exact List.take_left'
          (List.length_replicate n CommandKind.conditionalNode)
      have hstep : primUpdate s (PrimOp.condNodes n) = Except.ok
          ({ s with update_state := ⟨a + n, b, c + 1⟩ }, []) := by
        simp [primUpdate, hs, hcc, hlen, hkchk]
      obtain ⟨reqs, hrun, hall⟩ := ih ({ s with update_state := ⟨a + n, b, c + 1⟩ })
        (a + n) b (c + 1) rfl
        (by simp only [nodeCount] at hn; simpa using by omega)
        (by simpa using hb)
        (by
          refine ⟨tail, ?_⟩
          have hdrop : (condCounts s).drop (c + 1) = condShape ps ++ tail := by
            rw [← List.tail_drop, htail]
            simp
          simpa [condCounts] using hdrop)
        (by
          refine ⟨ktail, ?_⟩
          have hdr : (scopeNodeKinds s).drop (a + n) = nodeKinds ps ++ ktail := by
            have h1 : (scopeNodeKinds s).drop (a + n)
                = ((scopeNodeKinds s).drop a).drop n := by
              rw [List.drop_drop, Nat.add_comm]
            rw [h1, hkt]
            exact List.drop_left'
              (List.length_replicate n CommandKind.conditionalNode)
          simpa [scopeNodeKinds] using hdr)
      refine ⟨reqs, ?_, hall⟩
      simp only [runPrimsUpdate, hstep, hrun]
      have e : a + (n + nodeCount ps) = a + n + nodeCount ps := by omega
      have e2 : c + (1 + (condShape ps).length) = c + 1 + (condShape ps).length := by omega
      simp [nodeCount, barrierCalls, condShape, e, e2]
      omega

/-- Forward invariant of a successful update replay on one scope: the
recorded lists are untouched, the cursors advance by exactly the replayed
counts, the stored conditional branch counts from the starting conditional
cursor agree with the replayed conditional shape, and the recorded node
kinds from the starting node cursor agree with the replayed command
kinds. -/
theorem runPrimsUpdate_ok_inv (ps : List PrimOp) :
    ∀ s s' reqs, runPrimsUpdate ps s = Except.ok (s', reqs) →
      s'.nodes = s.nodes ∧ s'.barriers = s.barriers ∧
      s'.conditional_command_buffers = s.conditional_command_buffers ∧
      s'.update_state.node_idx = s.update_state.node_idx + nodeCount ps ∧
      s'.update_state.barrier_idx = s.update_state.barrier_idx + barrierCalls ps ∧
      s'.update_state.conditional_idx
        = s.update_state.conditional_idx + (condShape ps).length ∧
      ((condCounts s).drop s.update_state.conditional_idx).take (condShape ps).length
        = condShape ps ∧
      ((scopeNodeKinds s).drop s.update_state.node_idx).take (nodeKinds ps).length
        = nodeKinds ps := by
  induction ps with
  | nil =>
    intro s s' reqs h
    simp only [runPrimsUpdate, Except.ok.injEq, Prod.mk.injEq] at h
    obtain ⟨rfl, -⟩ := h
    simp [nodeCount, barrierCalls, condShape, nodeKinds]
  | cons p ps ih =>
    intro s s' reqs h
    simp only [runPrimsUpdate] at h
    cases hp : primUpdate s p with
    | error e => rw [hp] at h; exact absurd h (by simp)
    | ok v =>
      rw [hp] at h
      obtain ⟨s1, r1⟩ := v
      dsimp only at h
      cases hrest : runPrimsUpdate ps s1 with
      | error e => rw [hrest] at h; exact absurd h (by simp)
      | ok v1 =>
        rw [hrest] at h
        obtain ⟨s2, r2⟩ := v1
        simp only [Except.ok.injEq, Prod.mk.injEq] at h
        obtain ⟨rfl, -⟩ := h
        have ihf := ih s1 s2 r2 hrest
        cases p with
        | record k =>
          cases hg : s.nodes[s.update_state.node_idx]? with
          | none => rw [primUpdate, hg] at hp; exact absurd hp (by simp)
          | some ni =>
            rw [primUpdate, hg] at hp
            dsimp only at hp
            by_cases hki : ni.kind = k
            case neg =>
              rw [if_neg hki] at hp
              exact absurd hp (by simp)
            rw [if_pos hki] at hp
            simp only [Except.ok.injEq, Prod.mk.injEq] at hp
            obtain ⟨rfl, -⟩ := hp
            have hnlt : s.update_state.node_idx < s.nodes.length := by
              rcases List.getElem?_eq_some.mp hg with ⟨hlt, -⟩
              exact hlt
            have hnlt' : s.update_state.node_idx < (scopeNodeKinds s).length := by
              simpa [scopeNodeKinds] using hnlt
            have hdropk : (scopeNodeKinds s).drop s.update_state.node_idx
                = ni.kind :: (scopeNodeKinds s).drop (s.update_state.node_idx + 1) := by
              rw [List.drop_eq_getElem_cons hnlt']
              congr 1
              simp only [scopeNodeKinds]
              rw [List.getElem_map]
              rcases List.getElem?_eq_some.mp hg with ⟨hlt, hv⟩
              rw [hv]
            simp only [nodeCount, barrierCalls, condShape, nodeKinds] at ihf ⊢
            refine ⟨ihf.1, ihf.2.1, ihf.2.2.1, ?_, ?_, ?_, ?_, ?_⟩
            · have := ihf.2.2.2.1
              simp at this ⊢
              omega
            · have := ihf.2.2.2.2.1
              simp at this ⊢
              omega
            · have := ihf.2.2.2.2.2.1
              simp at this ⊢
              omega
            · have := ihf.2.2.2.2.2.2.1
              simpa [condCounts] using this
            · have htk := ihf.2.2.2.2.2.2.2
              simp only [scopeNodeKinds] at hdropk htk ⊢
              rw [List.length_cons, hdropk, List.take_succ_cons, hki, htk]
        | barrier =>
          cases hg : s.barriers[s.update_state.barrier_idx]? with
          | none => rw [primUpdate, hg] at hp; exact absurd hp (by simp)
          | some bi =>
            rw [primUpdate, hg] at hp
            simp only [Except.ok.injEq, Prod.mk.injEq] at hp
            obtain ⟨rfl, -⟩ := hp
            simp only [nodeCount, barrierCalls, condShape, nodeKinds] at ihf ⊢
            refine ⟨ihf.1, ihf.2.1, ihf.2.2.1, ?_, ?_, ?_, ?_, ?_⟩
            · have := ihf.2.2.2.1
              simp at this ⊢
              omega
            · have := ihf.2.2.2.2.1
              simp at this ⊢
              omega
            · have := ihf.2.2.2.2.2.1
              simp at this ⊢
              omega
            · have := ihf.2.2.2.2.2.2.1
              simpa [condCounts] using this
            · have := ihf.2.2.2.2.2.2.2
              simpa [scopeNodeKinds] using this
        | condNodes n =>
          cases hg : s.conditional_command_buffers[s.update_state.conditional_idx]? with
          | none => rw [primUpdate, hg] at hp; exact absurd hp (by simp)
          | some cc =>
            rw [primUpdate, hg] at hp
            dsimp only at hp
            by_cases hl : cc.command_buffers.length = n
            case neg =>
              rw [if_neg hl] at hp
              exact absurd hp (by simp)
            rw [if_pos hl] at hp
            by_cases hkc : ((s.nodes.drop s.update_state.node_idx).take n).map
                (fun ni => ni.kind) = List.replicate n CommandKind.conditionalNode
            case neg =>
              rw [if_neg hkc] at hp
              exact absurd hp (by simp)
            rw [if_pos hkc] at hp
            simp only [Except.ok.injEq, Prod.mk.injEq] at hp
            obtain ⟨rfl, -⟩ := hp
            have hci : s.update_state.conditional_idx
                < s.conditional_command_buffers.length := by
              rcases List.getElem?_eq_some.mp hg with ⟨hlt, -⟩
              exact hlt
            have hci' : s.update_state.conditional_idx < (condCounts s).length := by
              simpa [condCounts] using hci
            have hdropc : (condCounts s).drop s.update_state.conditional_idx
                = cc.command_buffers.length ::
                    (condCounts s).drop (s.update_state.conditional_idx + 1) := by
              rw [List.drop_eq_getElem_cons hci']
              congr 1
              simp only [condCounts]
              rw [List.getElem_map]
              rcases List.getElem?_eq_some.mp hg with ⟨hlt, hv⟩
              rw [hv]
            have hkfront : ((scopeNodeKinds s).drop s.update_state.node_idx).take n
                = List.replicate n CommandKind.conditionalNode := by
              have h1 : ((scopeNodeKinds s).drop s.update_state.node_idx).take n
                  = ((s.nodes.drop s.update_state.node_idx).take n).map
                      (fun ni => ni.kind) := by
                simp only [scopeNodeKinds]
                rw [List.map_take, List.map_drop]
              rw [h1, hkc]
            simp only [nodeCount, barrierCalls, condShape, nodeKinds] at ihf ⊢
            refine ⟨ihf.1, ihf.2.1, ihf.2.2.1, ?_, ?_, ?_, ?_, ?_⟩
            · have := ihf.2.2.2.1
              simp at this ⊢
              omega
            · have := ihf.2.2.2.2.1
              simp at this ⊢
              omega
            · have := ihf.2.2.2.2.2.1
              simp at this ⊢
              omega
            · have htk := ihf.2.2.2.2.2.2.1
              simp only [condCounts] at hdropc htk ⊢
              rw [List.length_cons, hdropc, List.take_succ_cons, hl, htk]
            · have htk := ihf.2.2.2.2.2.2.2
              simp only [scopeNodeKinds] at hkfront htk ⊢
              have hlen2 : (List.replicate n CommandKind.conditionalNode
                  ++ nodeKinds ps).length = n + (nodeKinds ps).length := by
                simp
              rw [hlen2, List.take_add, hkfront]
              congr 1
              have hdd : ((s.nodes.map fun ni => ni.kind).drop
                    s.update_state.node_idx).drop n
                  = (s.nodes.map fun ni => ni.kind).drop
                      (s.update_state.node_idx + n) := by
                rw [List.drop_drop, Nat.add_comm]
              rw [hdd]
              exact htk

/-- Update-mode primitive runs fail only with structural-mismatch errors. -/
theorem runPrimsUpdate_error_kind (ps : List PrimOp) :
    ∀ s e, runPrimsUpdate ps s = Except.error e → e = CmdBufError.structuralMismatch := by
  induction ps with
  | nil =>
    intro s e h
    simp [runPrimsUpdate] at h
  | cons p ps ih =>
    intro s e h
    simp only [runPrimsUpdate] at h
    cases hp : primUpdate s p with
    | error e1 =>
      rw [hp] at h
      simp only [Except.error.injEq] at h
      subst h
      cases p with
      | record k =>
        rw [primUpdate] at hp
        cases hg : s.nodes[s.update_state.node_idx]? with
        | none => rw [hg] at hp; simpa using hp.symm
        | some ni =>
          rw [hg] at hp
          dsimp only at hp
          by_cases hki : ni.kind = k
          · rw [if_pos hki] at hp; exact absurd hp (by simp)
          · rw [if_neg hki] at hp; simpa using hp.symm
      | barrier =>
        rw [primUpdate] at hp
        cases hg : s.barriers[s.update_state.barrier_idx]? with
        | none => rw [hg] at hp; simpa using hp.symm
        | some bi => rw [hg] at hp; exact absurd hp (by simp)
      | condNodes n =>
        rw [primUpdate] at hp
        cases hg : s.conditional_command_buffers[s.update_state.conditional_idx]? with
        | none => rw [hg] at hp; simpa using hp.symm
        | some cc =>
          rw [hg] at hp
          dsimp only at hp
          by_cases hl : cc.command_buffers.length = n
          · rw [if_pos hl] at hp
            by_cases hkc : ((s.nodes.drop s.update_state.node_idx).take n).map
                (fun ni => ni.kind) = List.replicate n CommandKind.conditionalNode
            · rw [if_pos hkc] at hp; exact absurd hp (by simp)
            · rw [if_neg hkc] at hp; simpa using hp.symm
          · rw [if_neg hl] at hp; simpa using hp.symm
    | ok v =>
      rw [hp] at h
      obtain ⟨s1, r1⟩ := v
      dsimp only at h
      cases hrest : runPrimsUpdate ps s1 with
      | error e1 =>
        rw [hrest] at h
        simp only [Except.error.injEq] at h
        subst h
        exact ih s1 _ hrest
      | ok v1 =>
        rw [hrest] at h
        obtain ⟨s2, r2⟩ := v1
        exact absurd h (by simp)

theorem nodeCount_append (xs ys : List PrimOp) :
    nodeCount (xs ++ ys) = nodeCount xs + nodeCount ys := by
  induction xs with
  | nil => simp [nodeCount]
  | cons p xs ih => cases p <;> simp [nodeCount, ih] <;> omega

theorem barrierCalls_append (xs ys : List PrimOp) :
    barrierCalls (xs ++ ys) = barrierCalls xs + barrierCalls ys := by
  induction xs with
  | nil => simp [barrierCalls]
  | cons p xs ih => cases p <;> simp [barrierCalls, ih] <;> omega

theorem condShape_append (xs ys : List PrimOp) :
    condShape (xs ++ ys) = condShape xs ++ condShape ys := by
  induction xs with
  | nil => simp [condShape]
  | cons p xs ih => cases p <;> simp [condShape, ih]

theorem nodeKinds_append (xs ys : List PrimOp) :
    nodeKinds (xs ++ ys) = nodeKinds xs ++ nodeKinds ys := by
  induction xs with
  | nil => simp [nodeKinds]
  | cons p xs ih => cases p <;> simp [nodeKinds, ih]

theorem length_nodeKinds (ps : List PrimOp) :
    (nodeKinds ps).length = nodeCount ps := by
  induction ps with
  | nil => simp [nodeKinds, nodeCount]
  | cons p ps ih => cases p <;> simp [nodeKinds, nodeCount, ih] <;> omega

/-- Shape of a create-mode run on one scope: the node and barrier counts grow
by the counts of the primitive sequence, the stored conditional branch counts
extend by the sequence's conditional shape, the update cursors are untouched,
and the recorded node kinds extend by the sequence's command kinds. -/
theorem runPrimsCreate_shape (ps : List PrimOp) :
    ∀ st : ScopeSt,
      (runPrimsCreate ps st).1.scope.nodes.length
        = st.scope.nodes.length + nodeCount ps ∧
      (runPrimsCreate ps st).1.scope.barriers.length
        = st.scope.barriers.length + barrierCalls ps ∧
      condCounts (runPrimsCreate ps st).1.scope
        = condCounts st.scope ++ condShape ps ∧
      (runPrimsCreate ps st).1.scope.update_state = st.scope.update_state ∧
      scopeNodeKinds (runPrimsCreate ps st).1.scope
        = scopeNodeKinds st.scope ++ nodeKinds ps := by
  induction ps with
  | nil =>
    intro st
    simp [runPrimsCreate, nodeCount, barrierCalls, condShape, nodeKinds]
  | cons p ps ih =>
    intro st
    have key : (primCreate st p).1.scope.nodes.length
          = st.scope.nodes.length + nodeCount [p] ∧
        (primCreate st p).1.scope.barriers.length
          = st.scope.barriers.length + barrierCalls [p] ∧
        condCounts (primCreate st p).1.scope = condCounts st.scope ++ condShape [p] ∧
        (primCreate st p).1.scope.update_state = st.scope.update_state ∧
        scopeNodeKinds (primCreate st p).1.scope
          = scopeNodeKinds st.scope ++ nodeKinds [p] := by
      cases p with
      | record =>
        simp [primCreate, recordNodeStep, nodeCount, barrierCalls, condShape, condCounts,
          scopeNodeKinds, nodeKinds]
      | barrier =>
        by_cases hone : (GetBarrierDependencies st.scope).length = 1 <;>
          simp [primCreate, barrierStep, hone, nodeCount, barrierCalls, condShape, condCounts,
            scopeNodeKinds, nodeKinds]
      | condNodes n =>
        simp [primCreate, condNodesStep, nodeCount, barrierCalls, condShape, condCounts,
          scopeNodeKinds, nodeKinds, List.map_map, Function.comp,
          List.eq_replicate_iff]
    have h := ih (primCreate st p).1
    simp only [runPrimsCreate]
    refine ⟨?_, ?_, ?_, ?_, ?_⟩
    · rw [h.1, key.1]
      cases p <;> simp [nodeCount] <;> omega
    · rw [h.2.1, key.2.1]
      cases p <;> simp [barrierCalls] <;> omega
    · rw [h.2.2.1, key.2.2.1]
      cases p <;> simp [condShape]
    · rw [h.2.2.2.1, key.2.2.2.1]
    · rw [h.2.2.2.2, key.2.2.2.2]
      cases p <;> simp [nodeKinds, List.append_assoc]

theorem lookup_upsert (k : Nat) (v : ExecutionScope) :
    ∀ (l : List (Nat × ExecutionScope)) (k' : Nat),
      (upsertScope l k v).lookup k' = if k' = k then some v else l.lookup k' := by
  intro l
  induction l with
  | nil =>
    intro k'
    by_cases h : k' = k
    · subst h
      simp [upsertScope, List.lookup]
    · have hb : (k' == k) = false := beq_eq_false_iff_ne.mpr h
      simp [upsertScope, List.lookup, hb, h]
  | cons kv rest ih =>
    intro k'
    obtain ⟨k0, v0⟩ := kv
    by_cases h0 : k0 = k
    · subst h0
      by_cases h' : k' = k0
      · subst h'
        simp [upsertScope, List.lookup]
      · have hb : (k' == k0) = false := beq_eq_false_iff_ne.mpr h'
        simp [upsertScope, List.lookup, hb, h']
    · by_cases h' : k' = k0
      · subst h'
        have hne : ¬ k' = k := fun hh => h0 hh
        simp [upsertScope, List.lookup, h0, hne]
      · have hb : (k' == k0) = false := beq_eq_false_iff_ne.mpr h'
        simp [upsertScope, List.lookup, h0, hb, ih k']

theorem getScope_setScope (b : GpuCommandBuffer) (sid : Nat) (s : ExecutionScope) (sid' : Nat) :
    getScope (setScope b sid s) sid' = if sid' = sid then s else getScope b sid' := by
  simp only [getScope, setScope, lookup_upsert]
  by_cases h : sid' = sid <;> simp [h]

theorem lookup_mem {l : List (Nat × ExecutionScope)} {k : Nat} {v : ExecutionScope}
    (h : l.lookup k = some v) : (k, v) ∈ l := by
  induction l with
  | nil => simp [List.lookup] at h
  | cons kv rest ih =>
    obtain ⟨k0, v0⟩ := kv
    by_cases h0 : k = k0
    · subst h0
      simp [List.lookup] at h
      simp [h]
    · have hb : (k == k0) = false := beq_eq_false_iff_ne.mpr h0
      simp [List.lookup, hb] at h
      exact List.mem_cons_of_mem _ (ih h)

theorem lookup_eq_of_mem_nodup :
    ∀ {l : List (Nat × ExecutionScope)} {k : Nat} {v : ExecutionScope},
      (l.map Prod.fst).Nodup → (k, v) ∈ l → l.lookup k = some v := by
  intro l
  induction l with
  | nil =>
    intro k v _ hm
    simp at hm
  | cons kv rest ih =>
    intro k v hnd hm
    obtain ⟨k0, v0⟩ := kv
    simp only [List.map_cons, List.nodup_cons] at hnd
    rcases List.mem_cons.mp hm with h | h
    · obtain ⟨rfl, rfl⟩ : k = k0 ∧ v = v0 := by
        constructor
        · exact congrArg Prod.fst h
        · exact congrArg Prod.snd h
      simp [List.lookup]
    · have hne : ¬ k = k0 := by
        intro hk
        subst hk
        exact hnd.1 (List.mem_map.mpr ⟨(k, v), h, rfl⟩)
      have hb : (k == k0) = false := beq_eq_false_iff_ne.mpr hne
      simp only [List.lookup, hb]
      exact ih hnd.2 h

theorem keys_upsert (k : Nat) (v : ExecutionScope) :
    ∀ l : List (Nat × ExecutionScope),
      (upsertScope l k v).map Prod.fst = l.map Prod.fst ∨
      (upsertScope l k v).map Prod.fst = l.map Prod.fst ++ [k] := by
  intro l
  induction l with
  | nil => simp [upsertScope]
  | cons kv rest ih =>
    obtain ⟨k0, v0⟩ := kv
    by_cases h0 : k0 = k
    · subst h0
      left
      simp [upsertScope]
    · rcases ih with h | h
      · left
        simp [upsertScope, h0, h]
      · right
        simp [upsertScope, h0, h]

theorem upsert_keys_nodup {l : List (Nat × ExecutionScope)} (k : Nat) (v : ExecutionScope)
    (h : (l.map Prod.fst).Nodup) : ((upsertScope l k v).map Prod.fst).Nodup := by
  induction l with
  | nil => simp [upsertScope]
  | cons kv rest ih =>
    obtain ⟨k0, v0⟩ := kv
    simp only [List.map_cons, List.nodup_cons] at h
    by_cases h0 : k0 = k
    · subst h0
      have hu : upsertScope ((k0, v0) :: rest) k0 v = (k0, v) :: rest := by
        simp [upsertScope]
      rw [hu]
      simp only [List.map_cons, List.nodup_cons]
      exact ⟨h.1, h.2⟩
    · simp only [upsertScope, if_neg h0, List.map_cons, List.nodup_cons]
      refine ⟨?_, ih h.2⟩
      intro hmem
      rcases keys_upsert k v rest with hk | hk
      · rw [hk] at hmem
        exact h.1 hmem
      · rw [hk] at hmem
        rcases List.mem_append.mp hmem with hmem | hmem
        · exact h.1 hmem
        · simp at hmem
          exact h0 hmem

theorem lookup_map_snd (f : ExecutionScope → ExecutionScope) :
    ∀ (l : List (Nat × ExecutionScope)) (k : Nat),
      (l.map (fun kv => (kv.1, f kv.2))).lookup k = (l.lookup k).map f := by
  intro l
  induction l with
  | nil => intro k; simp [List.lookup]
  | cons kv rest ih =>
    intro k
    obtain ⟨k0, v0⟩ := kv
    by_cases h0 : k = k0
    · subst h0
      simp [List.lookup]
    · have hb : (k == k0) = false := beq_eq_false_iff_ne.mpr h0
      simp [List.lookup, hb, ih]

theorem createCall_fields (b : GpuCommandBuffer) (c : ApiCall) :
    (createCall b c).1.state = b.state ∧ (createCall b c).1.graph = b.graph ∧
    (createCall b c).1.is_owned_graph = b.is_owned_graph ∧
    (createCall b c).1.exec = b.exec ∧
    (createCall b c).1.is_owned_graph_exec = b.is_owned_graph_exec ∧
    (createCall b c).1.mode = b.mode := by
  simp [createCall, setScope]

theorem recordCalls_fields (calls : List ApiCall) :
    ∀ b : GpuCommandBuffer,
      (recordCalls b calls).1.state = b.state ∧
      (recordCalls b calls).1.graph = b.graph ∧
      (recordCalls b calls).1.is_owned_graph = b.is_owned_graph ∧
      (recordCalls b calls).1.exec = b.exec ∧
      (recordCalls b calls).1.is_owned_graph_exec = b.is_owned_graph_exec ∧
      (recordCalls b calls).1.mode = b.mode := by
  induction calls with
  | nil => intro b; simp [recordCalls]
  | cons c cs ih =>
    intro b
    have h1 := createCall_fields b c
    have h2 := ih (createCall b c).1
    simp only [recordCalls]
    exact ⟨h2.1.trans h1.1, h2.2.1.trans h1.2.1, h2.2.2.1.trans h1.2.2.1,
      h2.2.2.2.1.trans h1.2.2.2.1, h2.2.2.2.2.1.trans h1.2.2.2.2.1,
      h2.2.2.2.2.2.trans h1.2.2.2.2.2⟩

theorem setScope_state (b : GpuCommandBuffer) (sid : Nat) (s : ExecutionScope) :
    (setScope b sid s).state = b.state := rfl

theorem getScope_map_reset (b : GpuCommandBuffer) (sid : Nat) :
    getScope { b with execution_scopes :=
        b.execution_scopes.map (fun kv => (kv.1, resetUpdateState kv.2)) } sid
      = resetUpdateState (getScope b sid) := by
  simp only [getScope, lookup_map_snd]
  cases b.execution_scopes.lookup sid <;> simp [resetUpdateState]

theorem applyCall_wf {b b1 : GpuCommandBuffer} {c : ApiCall} {r : List BackendReq}
    (h : applyCall b c = Except.ok (b1, r))
    (hnd : (b.execution_scopes.map Prod.fst).Nodup) :
    (b1.execution_scopes.map Prod.fst).Nodup := by
  unfold applyCall at h
  cases hst : b.state with
  | kCreate =>
    rw [hst] at h
    simp only [Except.ok.injEq] at h
    have hb1 : b1 = (createCall b c).1 := by rw [h]
    rw [hb1]
    simp only [createCall, setScope]
    exact upsert_keys_nodup _ _ hnd
  | kUpdate =>
    rw [hst] at h
    unfold updateCall at h
    cases hu : runPrimsUpdate c.prims (getScope b c.scopeId) with
    | error e => rw [hu] at h; exact absurd h (by simp)
    | ok v =>
      rw [hu] at h
      obtain ⟨s, reqs⟩ := v
      simp only [Except.ok.injEq, Prod.mk.injEq] at h
      obtain ⟨h, -⟩ := h
      rw [← h]
      exact upsert_keys_nodup _ _ hnd
  | kFinalized =>
    rw [hst] at h
    exact absurd h (by simp)

theorem recordCalls_wf (calls : List ApiCall) :
    ∀ b : GpuCommandBuffer, (b.execution_scopes.map Prod.fst).Nodup →
      ((recordCalls b calls).1.execution_scopes.map Prod.fst).Nodup := by
  induction calls with
  | nil => intro b hnd; exact hnd
  | cons c cs ih =>
    intro b hnd
    simp only [recordCalls]
    refine ih (createCall b c).1 ?_
    simp only [createCall]
    exact upsert_keys_nodup _ _ hnd

/-- Shape of the execution scopes after a create-mode recording of a call
sequence: each scope's node and barrier counts grow by the counts of the
primitives the sequence records into that scope, the stored conditional
branch counts extend by its conditional shape, and the update cursors are
untouched. -/
theorem recordCalls_scope_shape (calls : List ApiCall) :
    ∀ (b : GpuCommandBuffer) (sid : Nat),
      (getScope (recordCalls b calls).1 sid).nodes.length
        = (getScope b sid).nodes.length + nodeCount (scopePrims calls sid) ∧
      (getScope (recordCalls b calls).1 sid).barriers.length
        = (getScope b sid).barriers.length + barrierCalls (scopePrims calls sid) ∧
      condCounts (getScope (recordCalls b calls).1 sid)
        = condCounts (getScope b sid) ++ condShape (scopePrims calls sid) ∧
      (getScope (recordCalls b calls).1 sid).update_state
        = (getScope b sid).update_state ∧
      scopeNodeKinds (getScope (recordCalls b calls).1 sid)
        = scopeNodeKinds (getScope b sid) ++ nodeKinds (scopePrims calls sid) := by
  induction calls with
  | nil =>
    intro b sid
    simp [recordCalls, scopePrims, nodeCount, barrierCalls, condShape, nodeKinds]
  | cons c cs ih =>
    intro b sid
    have hscope : getScope (createCall b c).1 sid
        = if sid = c.scopeId
          then (runPrimsCreate c.prims
            { scope := getScope b c.scopeId, fresh := b.next_handle }).1.scope
          else getScope b sid := by
      simp only [createCall]
      rw [getScope_setScope]
      have : getScope { b with next_handle :=
          (runPrimsCreate c.prims
            { scope := getScope b c.scopeId, fresh := b.next_handle }).1.fresh } sid
          = getScope b sid := rfl
      by_cases h : sid = c.scopeId <;> simp [h, this]
    have h2 := ih (createCall b c).1 sid
    simp only [recordCalls]
    by_cases hsid : sid = c.scopeId
    · rw [hscope] at h2
      simp only [if_pos hsid] at h2
      rw [hsid] at h2 ⊢
      have hps := runPrimsCreate_shape c.prims
        { scope := getScope b c.scopeId, fresh := b.next_handle }
      dsimp only at hps
      have hsp : scopePrims (c :: cs) c.scopeId = c.prims ++ scopePrims cs c.scopeId := by
        simp [scopePrims]
      rw [hsp]
      refine ⟨?_, ?_, ?_, ?_, ?_⟩
      · rw [h2.1, hps.1, nodeCount_append]
        omega
      · rw [h2.2.1, hps.2.1, barrierCalls_append]
        omega
      · rw [h2.2.2.1, hps.2.2.1, condShape_append, List.append_assoc]
      · rw [h2.2.2.2.1, hps.2.2.2.1]
      · rw [h2.2.2.2.2, hps.2.2.2.2, nodeKinds_append, List.append_assoc]
    · have hsp : scopePrims (c :: cs) sid
          = scopePrims cs sid := by
        have : ¬ c.scopeId = sid := fun h => hsid h.symm
        simp [scopePrims, this]
      rw [hsp]
      rw [hscope] at h2
      simp only [if_neg hsid] at h2
      exact h2

/-- Constructive success of a full update replay on the buffer: when every
scope's cursors have enough room for the counts the call sequence records
into it, the stored conditional branch counts continue with the replayed
conditional shape, and the recorded node kinds continue with the replayed
command kinds, the replay succeeds, leaves every scope's recorded lists
untouched, advances every scope's cursors by exactly those counts, and
issues only backend parameter-update requests. -/
theorem replayCalls_update_ok (cs : List ApiCall) :
    ∀ b : GpuCommandBuffer, b.state = State.kUpdate →
      (∀ sid,
        (getScope b sid).update_state.node_idx + nodeCount (scopePrims cs sid)
            ≤ (getScope b sid).nodes.length ∧
        (getScope b sid).update_state.barrier_idx + barrierCalls (scopePrims cs sid)
            ≤ (getScope b sid).barriers.length ∧
        (∃ tail, (condCounts (getScope b sid)).drop
              (getScope b sid).update_state.conditional_idx
            = condShape (scopePrims cs sid) ++ tail) ∧
        ∃ ktail, (scopeNodeKinds (getScope b sid)).drop
              (getScope b sid).update_state.node_idx
            = nodeKinds (scopePrims cs sid) ++ ktail) →
      ∃ b' reqs, replayCalls b cs = Except.ok (b', reqs) ∧
        b'.state = State.kUpdate ∧
        reqs.all isUpdateReq = true ∧
        (∀ sid,
          (getScope b' sid).nodes = (getScope b sid).nodes ∧
          (getScope b' sid).barriers = (getScope b sid).barriers ∧
          (getScope b' sid).conditional_command_buffers
            = (getScope b sid).conditional_command_buffers ∧
          (getScope b' sid).update_state.node_idx
            = (getScope b sid).update_state.node_idx + nodeCount (scopePrims cs sid) ∧
          (getScope b' sid).update_state.barrier_idx
            = (getScope b sid).update_state.barrier_idx
                + barrierCalls (scopePrims cs sid) ∧
          (getScope b' sid).update_state.conditional_idx
            = (getScope b sid).update_state.conditional_idx
                + (condShape (scopePrims cs sid)).length) := by
  induction cs with
  | nil =>
    intro b hstate _
    refine ⟨b, [], rfl, hstate, rfl, ?_⟩
    intro sid
    simp [scopePrims, nodeCount, barrierCalls, condShape]
  | cons c cs ih =>
    intro b hstate hroom
    have hsp : scopePrims (c :: cs) c.scopeId = c.prims ++ scopePrims cs c.scopeId := by
      simp [scopePrims]
    have hroomt := hroom c.scopeId
    rw [hsp, nodeCount_append, barrierCalls_append, condShape_append,
      nodeKinds_append] at hroomt
    obtain ⟨hn, hbar, ⟨tail, htail⟩, ⟨ktail, hktail⟩⟩ := hroomt
    obtain ⟨reqs1, hrun1, hall1⟩ := runPrimsUpdate_ok_of c.prims (getScope b c.scopeId)
      (getScope b c.scopeId).update_state.node_idx
      (getScope b c.scopeId).update_state.barrier_idx
      (getScope b c.scopeId).update_state.conditional_idx
      rfl
      (by omega)
      (by omega)
      ⟨condShape (scopePrims cs c.scopeId) ++ tail, by rw [htail, List.append_assoc]⟩
      ⟨nodeKinds (scopePrims cs c.scopeId) ++ ktail, by rw [hktail, List.append_assoc]⟩
    have happly : applyCall b c = Except.ok
        (setScope b c.scopeId
          ({ getScope b c.scopeId with update_state :=
              ⟨(getScope b c.scopeId).update_state.node_idx + nodeCount c.prims,
               (getScope b c.scopeId).update_state.barrier_idx + barrierCalls c.prims,
               (getScope b c.scopeId).update_state.conditional_idx
                 + (condShape c.prims).length⟩ }), reqs1) := by
      simp [applyCall, hstate, updateCall, hrun1]
    set s' : ExecutionScope :=
      { getScope b c.scopeId with update_state :=
          ⟨(getScope b c.scopeId).update_state.node_idx + nodeCount c.prims,
           (getScope b c.scopeId).update_state.barrier_idx + barrierCalls c.prims,
           (getScope b c.scopeId).update_state.conditional_idx
             + (condShape c.prims).length⟩ } with hs'
    have hget1 : ∀ sid, getScope (setScope b c.scopeId s') sid
        = if sid = c.scopeId then s' else getScope b sid := by
      intro sid
      exact getScope_setScope b c.scopeId s' sid
    have hstate1 : (setScope b c.scopeId s').state = State.kUpdate := by
      rw [setScope_state]
      exact hstate
    have hroom1 : ∀ sid,
        (getScope (setScope b c.scopeId s') sid).update_state.node_idx
            + nodeCount (scopePrims cs sid)
          ≤ (getScope (setScope b c.scopeId s') sid).nodes.length ∧
        (getScope (setScope b c.scopeId s') sid).update_state.barrier_idx
            + barrierCalls (scopePrims cs sid)
          ≤ (getScope (setScope b c.scopeId s') sid).barriers.length ∧
        (∃ tail2, (condCounts (getScope (setScope b c.scopeId s') sid)).drop
              (getScope (setScope b c.scopeId s') sid).update_state.conditional_idx
            = condShape (scopePrims cs sid) ++ tail2) ∧
        ∃ ktail2, (scopeNodeKinds (getScope (setScope b c.scopeId s') sid)).drop
              (getScope (setScope b c.scopeId s') sid).update_state.node_idx
            = nodeKinds (scopePrims cs sid) ++ ktail2 := by
      intro sid
      rw [hget1 sid]
      by_cases hsid : sid = c.scopeId
      · rw [if_pos hsid, hs', hsid]
        refine ⟨by dsimp only; omega, by dsimp only; omega, ⟨tail, ?_⟩, ⟨ktail, ?_⟩⟩
        · dsimp only
          have hdd : (condCounts (getScope b c.scopeId)).drop
                ((getScope b c.scopeId).update_state.conditional_idx
                  + (condShape c.prims).length)
              = ((condCounts (getScope b c.scopeId)).drop
                  (getScope b c.scopeId).update_state.conditional_idx).drop
                    (condShape c.prims).length := by
            rw [List.drop_drop, Nat.add_comm]
          rw [show condCounts { getScope b c.scopeId with update_state :=
                ⟨(getScope b c.scopeId).update_state.node_idx + nodeCount c.prims,
                 (getScope b c.scopeId).update_state.barrier_idx + barrierCalls c.prims,
                 (getScope b c.scopeId).update_state.conditional_idx
                   + (condShape c.prims).length⟩ }
              = condCounts (getScope b c.scopeId) from rfl]
          rw [hdd, htail, List.append_assoc, List.drop_left]
        · dsimp only
          have hdk : (scopeNodeKinds (getScope b c.scopeId)).drop
                ((getScope b c.scopeId).update_state.node_idx + nodeCount c.prims)
              = ((scopeNodeKinds (getScope b c.scopeId)).drop
                  (getScope b c.scopeId).update_state.node_idx).drop
                    (nodeCount c.prims) := by
            rw [List.drop_drop, Nat.add_comm]
          rw [show scopeNodeKinds { getScope b c.scopeId with update_state :=
                ⟨(getScope b c.scopeId).update_state.node_idx + nodeCount c.prims,
                 (getScope b c.scopeId).update_state.barrier_idx + barrierCalls c.prims,
                 (getScope b c.scopeId).update_state.conditional_idx
                   + (condShape c.prims).length⟩ }
              = scopeNodeKinds (getScope b c.scopeId) from rfl]
          rw [hdk, hktail, List.append_assoc, ← length_nodeKinds c.prims,
            List.drop_left]
      · rw [if_neg hsid]
        have hspn : scopePrims (c :: cs) sid = scopePrims cs sid := by
          have : ¬ c.scopeId = sid := fun h => hsid h.symm
          simp [scopePrims, this]
        have := hroom sid
        rw [hspn] at this
        exact this
    obtain ⟨b2, reqs2, hrep2, hst2, hall2, hinv2⟩ := ih (setScope b c.scopeId s') hstate1 hroom1
    refine ⟨b2, reqs1 ++ reqs2, ?_, hst2, ?_, ?_⟩
    · simp only [replayCalls, happly, hrep2]
    · simp only [List.all_append, hall1, hall2, Bool.and_self]
    · intro sid
      have h2 := hinv2 sid
      rw [hget1 sid] at h2
      by_cases hsid : sid = c.scopeId
      · rw [if_pos hsid] at h2
        rw [hsid]
        have hspz : scopePrims (c :: cs) c.scopeId
            = c.prims ++ scopePrims cs c.scopeId := hsp
        rw [hspz, nodeCount_append, barrierCalls_append, condShape_append]
        rw [hsid] at h2
        refine ⟨?_, ?_, ?_, ?_, ?_, ?_⟩
        · rw [h2.1, hs']
        · rw [h2.2.1, hs']
        · rw [h2.2.2.1, hs']
        · rw [h2.2.2.2.1, hs']
          dsimp only
          omega
        · rw [h2.2.2.2.2.1, hs']
          dsimp only
          omega
        · rw [h2.2.2.2.2.2, hs']
          dsimp only
          rw [List.length_append]
          omega
      · rw [if_neg hsid] at h2
        have hspn : scopePrims (c :: cs) sid = scopePrims cs sid := by
          have : ¬ c.scopeId = sid := fun h => hsid h.symm
          simp [scopePrims, this]
        rw [hspn]
        exact h2

/-- Forward invariant of a successful full update replay: per scope, the
recorded lists are untouched, the cursors advance by exactly the replayed
counts, the stored conditional branch counts from the starting cursor agree
with the replayed conditional shape, and the recorded node kinds from the
starting node cursor agree with the replayed command kinds. -/
theorem replayCalls_ok_inv (cs : List ApiCall) :
    ∀ b b' reqs, b.state = State.kUpdate →
      replayCalls b cs = Except.ok (b', reqs) →
      ∀ sid,
        (getScope b' sid).nodes = (getScope b sid).nodes ∧
        (getScope b' sid).barriers = (getScope b sid).barriers ∧
        (getScope b' sid).conditional_command_buffers
          = (getScope b sid).conditional_command_buffers ∧
        (getScope b' sid).update_state.node_idx
          = (getScope b sid).update_state.node_idx + nodeCount (scopePrims cs sid) ∧
        (getScope b' sid).update_state.barrier_idx
          = (getScope b sid).update_state.barrier_idx
              + barrierCalls (scopePrims cs sid) ∧
        (getScope b' sid).update_state.conditional_idx
          = (getScope b sid).update_state.conditional_idx
              + (condShape (scopePrims cs sid)).length ∧
        ((condCounts (getScope b sid)).drop
              (getScope b sid).update_state.conditional_idx).take
            (condShape (scopePrims cs sid)).length
          = condShape (scopePrims cs sid) ∧
        ((scopeNodeKinds (getScope b sid)).drop
              (getScope b sid).update_state.node_idx).take
            (nodeKinds (scopePrims cs sid)).length
          = nodeKinds (scopePrims cs sid) := by
  induction cs with
  | nil =>
    intro b b' reqs _ h sid
    simp only [replayCalls, Except.ok.injEq, Prod.mk.injEq] at h
    obtain ⟨rfl, -⟩ := h
    simp [scopePrims, nodeCount, barrierCalls, condShape, nodeKinds]
  | cons c cs ih =>
    intro b b' reqs hstate h sid
    simp only [replayCalls] at h
    have happ : applyCall b c = updateCall b c := by
      simp [applyCall, hstate]
    rw [happ] at h
    unfold updateCall at h
    cases hu : runPrimsUpdate c.prims (getScope b c.scopeId) with
    | error e => rw [hu] at h; exact absurd h (by simp)
    | ok v =>
      rw [hu] at h
      obtain ⟨s1, r1⟩ := v
      dsimp only at h
      cases hrest : replayCalls (setScope b c.scopeId s1) cs with
      | error e => rw [hrest] at h; exact absurd h (by simp)
      | ok v1 =>
        rw [hrest] at h
        obtain ⟨b2, r2⟩ := v1
        simp only [Except.ok.injEq, Prod.mk.injEq] at h
        obtain ⟨rfl, -⟩ := h
        have hsc := runPrimsUpdate_ok_inv c.prims (getScope b c.scopeId) s1 r1 hu
        have hstate1 : (setScope b c.scopeId s1).state = State.kUpdate := by
          rw [setScope_state]; exact hstate
        have h2 := ih (setScope b c.scopeId s1) b2 r2 hstate1 hrest sid
        rw [getScope_setScope] at h2
        by_cases hsid : sid = c.scopeId
        · rw [if_pos hsid] at h2
          rw [hsid] at h2 ⊢
          have hsp : scopePrims (c :: cs) c.scopeId
              = c.prims ++ scopePrims cs c.scopeId := by
            simp [scopePrims]
          rw [hsp, nodeCount_append, barrierCalls_append, condShape_append,
            nodeKinds_append]
          refine ⟨?_, ?_, ?_, ?_, ?_, ?_, ?_, ?_⟩
          · rw [h2.1, hsc.1]
          · rw [h2.2.1, hsc.2.1]
          · rw [h2.2.2.1, hsc.2.2.1]
          · rw [h2.2.2.2.1, hsc.2.2.2.1]
            omega
          · rw [h2.2.2.2.2.1, hsc.2.2.2.2.1]
            omega
          · rw [h2.2.2.2.2.2.1, hsc.2.2.2.2.2.1, List.length_append]
            omega
          · -- conditional-shape prefix composes across the two runs
            have htake1 := hsc.2.2.2.2.2.2.1
            have htake2 := h2.2.2.2.2.2.2.1
            have hcc1 : condCounts s1 = condCounts (getScope b c.scopeId) := by
              simp [condCounts, hsc.2.2.1]
            have hci1 : s1.update_state.conditional_idx
                = (getScope b c.scopeId).update_state.conditional_idx
                    + (condShape c.prims).length := hsc.2.2.2.2.2.1
            rw [hcc1, hci1] at htake2
            rw [List.length_append, List.take_add]
            rw [htake1]
            congr 1
            have hdd : ((condCounts (getScope b c.scopeId)).drop
                  (getScope b c.scopeId).update_state.conditional_idx).drop
                    (condShape c.prims).length
                = (condCounts (getScope b c.scopeId)).drop
                    ((getScope b c.scopeId).update_state.conditional_idx
                      + (condShape c.prims).length) := by
              rw [List.drop_drop, Nat.add_comm]
            rw [hdd]
            exact htake2
          · -- command-kind prefix composes across the two runs
            have hk1 := hsc.2.2.2.2.2.2.2
            have hk2 := h2.2.2.2.2.2.2.2
            have hkk1 : scopeNodeKinds s1 = scopeNodeKinds (getScope b c.scopeId) := by
              simp [scopeNodeKinds, hsc.1]
            have hni1 : s1.update_state.node_idx
                = (getScope b c.scopeId).update_state.node_idx
                    + nodeCount c.prims := hsc.2.2.2.1
            rw [hkk1, hni1] at hk2
            rw [List.length_append, List.take_add]
            rw [hk1]
            congr 1
            have hdd : ((scopeNodeKinds (getScope b c.scopeId)).drop
                  (getScope b c.scopeId).update_state.node_idx).drop
                    (nodeKinds c.prims).length
                = (scopeNodeKinds (getScope b c.scopeId)).drop
                    ((getScope b c.scopeId).update_state.node_idx
                      + nodeCount c.prims) := by
              rw [List.drop_drop, length_nodeKinds]
            rw [hdd]
            exact hk2
        · rw [if_neg hsid] at h2
          have hspn : scopePrims (c :: cs) sid = scopePrims cs sid := by
            have : ¬ c.scopeId = sid := fun hh => hsid hh.symm
            simp [scopePrims, this]
          rw [hspn]
          exact h2

/-- A full update replay fails only with structural-mismatch errors. -/
theorem replayCalls_error_kind (cs : List ApiCall) :
    ∀ b e, b.state = State.kUpdate → replayCalls b cs = Except.error e →
      e = CmdBufError.structuralMismatch := by
  induction cs with
  | nil =>
    intro b e _ h
    simp [replayCalls] at h
  | cons c cs ih =>
    intro b e hstate h
    simp only [replayCalls] at h
    have happ : applyCall b c = updateCall b c := by
      simp [applyCall, hstate]
    rw [happ] at h
    unfold updateCall at h
    cases hu : runPrimsUpdate c.prims (getScope b c.scopeId) with
    | error e1 =>
      rw [hu] at h
      simp only [Except.error.injEq] at h
      subst h
      exact runPrimsUpdate_error_kind c.prims _ _ hu
    | ok v =>
      rw [hu] at h
      obtain ⟨s1, r1⟩ := v
      dsimp only at h
      cases hrest : replayCalls (setScope b c.scopeId s1) cs with
      | error e1 =>
        rw [hrest] at h
        simp only [Except.error.injEq] at h
        subst h
        exact ih (setScope b c.scopeId s1) _ (by rw [setScope_state]; exact hstate) hrest
      | ok v1 =>
        rw [hrest] at h
        obtain ⟨b2, r2⟩ := v1
        exact absurd h (by simp)

theorem replayCalls_wf (cs : List ApiCall) :
    ∀ b b' reqs, replayCalls b cs = Except.ok (b', reqs) →
      (b.execution_scopes.map Prod.fst).Nodup →
      (b'.execution_scopes.map Prod.fst).Nodup := by
  induction cs with
  | nil =>
    intro b b' reqs h hnd
    simp only [replayCalls, Except.ok.injEq, Prod.mk.injEq] at h
    obtain ⟨rfl, -⟩ := h
    exact hnd
  | cons c cs ih =>
    intro b b' reqs h hnd
    simp only [replayCalls] at h
    cases ha : applyCall b c with
    | error e => rw [ha] at h; exact absurd h (by simp)
    | ok v =>
      rw [ha] at h
      obtain ⟨b1, r1⟩ := v
      dsimp only at h
      cases hrest : replayCalls b1 cs with
      | error e => rw [hrest] at h; exact absurd h (by simp)
      | ok v1 =>
        rw [hrest] at h
        obtain ⟨b2, r2⟩ := v1
        simp only [Except.ok.injEq, Prod.mk.injEq] at h
        obtain ⟨rfl, -⟩ := h
        exact ih b1 b2 r2 hrest (applyCall_wf ha hnd)

theorem all_done_getScope {b : GpuCommandBuffer}
    (h : b.execution_scopes.all (fun kv => scopeUpdateDone kv.2) = true) :
    ∀ sid, scopeUpdateDone (getScope b sid) = true := by
  intro sid
  unfold getScope
  cases hlk : b.execution_scopes.lookup sid with
  | none => decide
  | some v =>
    have hmem := lookup_mem hlk
    exact List.all_eq_true.mp h (sid, v) hmem

theorem finalize_create (b : GpuCommandBuffer) (h : b.state = State.kCreate) :
    Finalize b = Except.ok { b with
      state := State.kFinalized, exec := some b.next_handle,
      next_handle := b.next_handle + 1 } := by
  unfold Finalize
  rw [h]

theorem update_finalized (b : GpuCommandBuffer) (h : b.state = State.kFinalized) :
    Update b = Except.ok { b with
      state := State.kUpdate,
      execution_scopes := b.execution_scopes.map (fun kv => (kv.1, resetUpdateState kv.2)),
      num_updates := b.num_updates + 1 } := by
  unfold Update
  rw [h]

theorem finalize_update_done (b : GpuCommandBuffer) (h : b.state = State.kUpdate)
    (hall : b.execution_scopes.all (fun kv => scopeUpdateDone kv.2) = true) :
    Finalize b = Except.ok { b with state := State.kFinalized } := by
  unfold Finalize
  rw [h]
  simp [hall]

/-- C3: for every finalized command buffer, replaying the identical recording
sequence through `Update` succeeds: all three per-scope cursors are reset to
zero at the start of the pass, every scope's node list, barrier list and
conditional record list are left unchanged (zero new nodes, zero new
barriers), only backend parameter-update requests are issued, and at the end
of the pass every scope's cursors sit at exactly the positions the original
recording produced. -/
theorem update_replay_frame (calls : List ApiCall) :
    ∃ bF bu b' reqs,
      recordAndFinalize calls = Except.ok bF ∧
      Update bF = Except.ok bu ∧
      (∀ sid, (getScope bu sid).update_state = {}) ∧
      updatePass bF calls = Except.ok (b', reqs) ∧
      reqs.all isUpdateReq = true ∧
      (∀ sid,
        (getScope b' sid).nodes = (getScope bF sid).nodes ∧
        (getScope b' sid).barriers = (getScope bF sid).barriers ∧
        (getScope b' sid).conditional_command_buffers
          = (getScope bF sid).conditional_command_buffers ∧
        (getScope b' sid).update_state.node_idx = (getScope b' sid).nodes.length ∧
        (getScope b' sid).update_state.barrier_idx = (getScope b' sid).barriers.length ∧
        (getScope b' sid).update_state.conditional_idx
          = (getScope b' sid).conditional_command_buffers.length) := by
  have hRstate : (recordCalls (makeCommandBuffer Mode.kPrimary 0 true) calls).1.state
      = State.kCreate :=
    (recordCalls_fields calls (makeCommandBuffer Mode.kPrimary 0 true)).1
  set R := (recordCalls (makeCommandBuffer Mode.kPrimary 0 true) calls).1 with hRdef
  set bF : GpuCommandBuffer :=
    { R with
      state := State.kFinalized, exec := some R.next_handle,
      next_handle := R.next_handle + 1 } with hbF
  have hFin : Finalize R = Except.ok bF := finalize_create R hRstate
  set bu : GpuCommandBuffer :=
    { bF with
      state := State.kUpdate,
      execution_scopes :=
        bF.execution_scopes.map (fun kv => (kv.1, resetUpdateState kv.2)),
      num_updates := bF.num_updates + 1 } with hbu
  have hUp : Update bF = Except.ok bu := update_finalized bF rfl
  have hbuscope : ∀ sid, getScope bu sid = resetUpdateState (getScope bF sid) := by
    intro sid
    rw [hbu]
    simp only [getScope, lookup_map_snd]
    cases bF.execution_scopes.lookup sid with
    | none => simp [resetUpdateState]
    | some v => simp
  have hbFscope : ∀ sid, getScope bF sid = getScope R sid := fun _ => rfl
  have hb0scope : ∀ sid, getScope (makeCommandBuffer Mode.kPrimary 0 true) sid = {} :=
    fun _ => rfl
  have hlen : ∀ sid,
      (getScope R sid).nodes.length = nodeCount (scopePrims calls sid) ∧
      (getScope R sid).barriers.length = barrierCalls (scopePrims calls sid) ∧
      condCounts (getScope R sid) = condShape (scopePrims calls sid) ∧
      (getScope R sid).update_state = {} ∧
      scopeNodeKinds (getScope R sid) = nodeKinds (scopePrims calls sid) := by
    intro sid
    have h := recordCalls_scope_shape calls (makeCommandBuffer Mode.kPrimary 0 true) sid
    rw [hb0scope sid] at h
    rw [← hRdef] at h
    simpa [condCounts, scopeNodeKinds] using h
  have hbustate : bu.state = State.kUpdate := rfl
  have hroom : ∀ sid,
      (getScope bu sid).update_state.node_idx + nodeCount (scopePrims calls sid)
          ≤ (getScope bu sid).nodes.length ∧
      (getScope bu sid).update_state.barrier_idx + barrierCalls (scopePrims calls sid)
          ≤ (getScope bu sid).barriers.length ∧
      (∃ tail, (condCounts (getScope bu sid)).drop
            (getScope bu sid).update_state.conditional_idx
          = condShape (scopePrims calls sid) ++ tail) ∧
      ∃ ktail, (scopeNodeKinds (getScope bu sid)).drop
            (getScope bu sid).update_state.node_idx
          = nodeKinds (scopePrims calls sid) ++ ktail := by
    intro sid
    rw [hbuscope sid, hbFscope sid]
    have hl := hlen sid
    refine ⟨?_, ?_, ⟨[], ?_⟩, ⟨[], ?_⟩⟩
    · simp only [resetUpdateState]
      rw [hl.1]
      omega
    · simp only [resetUpdateState]
      rw [hl.2.1]
      omega
    · simp only [resetUpdateState]
      have : condCounts { getScope R sid with update_state := {} }
          = condCounts (getScope R sid) := rfl
      rw [this, hl.2.2.1]
      simp
    · simp only [resetUpdateState]
      have : scopeNodeKinds { getScope R sid with update_state := {} }
          = scopeNodeKinds (getScope R sid) := rfl
      rw [this, hl.2.2.2.2]
      simp
  obtain ⟨b2, reqs, hrep, hst2, hall, hinv⟩ := replayCalls_update_ok calls bu hbustate hroom
  have hnd0 : (((makeCommandBuffer Mode.kPrimary 0 true)).execution_scopes.map
      Prod.fst).Nodup := by
    simp [makeCommandBuffer]
  have hndR : (R.execution_scopes.map Prod.fst).Nodup := by
    rw [hRdef]
    exact recordCalls_wf calls _ hnd0
  have hndbu : (bu.execution_scopes.map Prod.fst).Nodup := by
    rw [hbu]
    have : (bF.execution_scopes.map (fun kv => (kv.1, resetUpdateState kv.2))).map
        Prod.fst = bF.execution_scopes.map Prod.fst := by
      rw [List.map_map]
      rfl
    simpa [this] using hndR
  have hndb2 := replayCalls_wf calls bu b2 reqs hrep hndbu
  have hdone : ∀ sid, scopeUpdateDone (getScope b2 sid) = true := by
    intro sid
    have hi := hinv sid
    rw [hbuscope sid, hbFscope sid] at hi
    have hl := hlen sid
    simp only [scopeUpdateDone, Bool.and_eq_true, beq_iff_eq]
    have hnodes : (getScope b2 sid).nodes = (getScope R sid).nodes := hi.1
    have hbarr : (getScope b2 sid).barriers = (getScope R sid).barriers := hi.2.1
    have hccb : (getScope b2 sid).conditional_command_buffers
        = (getScope R sid).conditional_command_buffers := hi.2.2.1
    have hcclen : (getScope R sid).conditional_command_buffers.length
        = (condShape (scopePrims calls sid)).length := by
      have := congrArg List.length hl.2.2.1
      simpa [condCounts] using this
    refine ⟨⟨?_, ?_⟩, ?_⟩
    · rw [hi.2.2.2.1, hnodes, hl.1]
      simp [resetUpdateState]
    · rw [hi.2.2.2.2.1, hbarr, hl.2.1]
      simp [resetUpdateState]
    · rw [hi.2.2.2.2.2, hccb, hcclen]
      simp [resetUpdateState]
  have hallb2 : b2.execution_scopes.all (fun kv => scopeUpdateDone kv.2) = true := by
    apply List.all_eq_true.mpr
    intro kv hkv
    obtain ⟨k, v⟩ := kv
    have hlk := lookup_eq_of_mem_nodup hndb2 hkv
    have hv : getScope b2 k = v := by simp [getScope, hlk]
    rw [← hv]
    exact hdone k
  have hFin2 : Finalize b2 = Except.ok { b2 with state := State.kFinalized } :=
    finalize_update_done b2 hst2 hallb2
  have hpass : updatePass bF calls = Except.ok ({ b2 with state := State.kFinalized }, reqs) := by
    unfold updatePass
    rw [hUp]
    dsimp only
    rw [hrep]
    dsimp only
    rw [hFin2]
  have hraf : recordAndFinalize calls = Except.ok bF := by
    unfold recordAndFinalize
    rw [← hRdef]
    exact hFin
  refine ⟨bF, bu, { b2 with state := State.kFinalized }, reqs, hraf, hUp, ?_, hpass, hall, ?_⟩
  · intro sid
    rw [hbuscope sid]
    rfl
  · intro sid
    have hi := hinv sid
    rw [hbuscope sid, hbFscope sid] at hi
    have hl := hlen sid
    have hget : getScope { b2 with state := State.kFinalized } sid = getScope b2 sid := rfl
    rw [hget, hbFscope sid]
    have hcclen : (getScope R sid).conditional_command_buffers.length
        = (condShape (scopePrims calls sid)).length := by
      have := congrArg List.length hl.2.2.1
      simpa [condCounts] using this
    refine ⟨hi.1, hi.2.1, hi.2.2.1, ?_, ?_, ?_⟩
    · rw [hi.2.2.2.1, hi.1]
      simp [resetUpdateState, hl.1]
    · rw [hi.2.2.2.2.1, hi.2.1]
      simp [resetUpdateState, hl.2.1]
    · rw [hi.2.2.2.2.2, hi.2.2.1]
      simp [resetUpdateState, hcclen]

theorem replayCalls_ok_state (cs : List ApiCall) :
    ∀ b b' reqs, b.state = State.kUpdate → replayCalls b cs = Except.ok (b', reqs) →
      b'.state = State.kUpdate := by
  induction cs with
  | nil =>
    intro b b' reqs hstate h
    simp only [replayCalls, Except.ok.injEq, Prod.mk.injEq] at h
    obtain ⟨rfl, -⟩ := h
    exact hstate
  | cons c cs ih =>
    intro b b' reqs hstate h
    simp only [replayCalls] at h
    have happ : applyCall b c = updateCall b c := by
      simp [applyCall, hstate]
    rw [happ] at h
    unfold updateCall at h
    cases hu : runPrimsUpdate c.prims (getScope b c.scopeId) with
    | error e => rw [hu] at h; exact absurd h (by simp)
    | ok v =>
      rw [hu] at h
      obtain ⟨s1, r1⟩ := v
      dsimp only at h
      cases hrest : replayCalls (setScope b c.scopeId s1) cs with
      | error e => rw [hrest] at h; exact absurd h (by simp)
      | ok v1 =>
        rw [hrest] at h
        obtain ⟨b2, r2⟩ := v1
        simp only [Except.ok.injEq, Prod.mk.injEq] at h
        obtain ⟨rfl, -⟩ := h
        exact ih (setScope b c.scopeId s1) b2 r2
          (by rw [setScope_state]; exact hstate) hrest

/-- C4: for every update pass whose replayed call sequence differs from the
original recording in the per-scope conditional branch-count shape, in the
per-scope number of command nodes or barriers, or in the per-scope sequence
of command-node kinds (so in particular a kind-only swap such as replaying a
recorded kernel launch as a memset, or a recorded `If` as a `While`), the
update fails with a structural-mismatch error instead of silently patching
the wrong nodes. -/
theorem update_structural_mismatch (calls calls' : List ApiCall) (sid0 : Nat)
    (hdiff : condShape (scopePrims calls' sid0) ≠ condShape (scopePrims calls sid0) ∨
             nodeCount (scopePrims calls' sid0) ≠ nodeCount (scopePrims calls sid0) ∨
             barrierCalls (scopePrims calls' sid0)
               ≠ barrierCalls (scopePrims calls sid0) ∨
             nodeKinds (scopePrims calls' sid0) ≠ nodeKinds (scopePrims calls sid0)) :
    ∀ bF, recordAndFinalize calls = Except.ok bF →
      updatePass bF calls' = Except.error CmdBufError.structuralMismatch := by
  intro bF hrec
  have hRstate : (recordCalls (makeCommandBuffer Mode.kPrimary 0 true) calls).1.state
      = State.kCreate :=
    (recordCalls_fields calls (makeCommandBuffer Mode.kPrimary 0 true)).1
  set R := (recordCalls (makeCommandBuffer Mode.kPrimary 0 true) calls).1 with hRdef
  have hFin := finalize_create R hRstate
  have hbFeq : bF = { R with
      state := State.kFinalized, exec := some R.next_handle,
      next_handle := R.next_handle + 1 } := by
    have hr2 : recordAndFinalize calls = Finalize R := by
      unfold recordAndFinalize
      rw [← hRdef]
    rw [hr2, hFin] at hrec
    exact (Except.ok.inj hrec).symm
  subst hbFeq
  set bF : GpuCommandBuffer := { R with
      state := State.kFinalized, exec := some R.next_handle,
      next_handle := R.next_handle + 1 } with hbF
  have hUp : Update bF = Except.ok { bF with
      state := State.kUpdate,
      execution_scopes :=
        bF.execution_scopes.map (fun kv => (kv.1, resetUpdateState kv.2)),
      num_updates := bF.num_updates + 1 } := update_finalized bF rfl
  set bu : GpuCommandBuffer := { bF with
      state := State.kUpdate,
      execution_scopes :=
        bF.execution_scopes.map (fun kv => (kv.1, resetUpdateState kv.2)),
      num_updates := bF.num_updates + 1 } with hbu
  have hbuscope : ∀ sid, getScope bu sid = resetUpdateState (getScope bF sid) := by
    intro sid
    rw [hbu]
    simp only [getScope, lookup_map_snd]
    cases bF.execution_scopes.lookup sid with
    | none => simp [resetUpdateState]
    | some v => simp
  have hbFscope : ∀ sid, getScope bF sid = getScope R sid := fun _ => rfl
  have hb0scope : ∀ sid, getScope (makeCommandBuffer Mode.kPrimary 0 true) sid = {} :=
    fun _ => rfl
  have hlen :
      (getScope R sid0).nodes.length = nodeCount (scopePrims calls sid0) ∧
      (getScope R sid0).barriers.length = barrierCalls (scopePrims calls sid0) ∧
      condCounts (getScope R sid0) = condShape (scopePrims calls sid0) ∧
      (getScope R sid0).update_state = {} ∧
      scopeNodeKinds (getScope R sid0) = nodeKinds (scopePrims calls sid0) := by
    have h := recordCalls_scope_shape calls (makeCommandBuffer Mode.kPrimary 0 true) sid0
    rw [hb0scope sid0] at h
    rw [← hRdef] at h
    simpa [condCounts, scopeNodeKinds] using h
  unfold updatePass
  rw [hUp]
  dsimp only
  cases hrep : replayCalls bu calls' with
  | error e =>
    dsimp only
    rw [replayCalls_error_kind calls' bu e rfl hrep]
  | ok v =>
    obtain ⟨b2, reqs⟩ := v
    dsimp only
    have hst2 : b2.state = State.kUpdate := replayCalls_ok_state calls' bu b2 reqs rfl hrep
    have hinv := replayCalls_ok_inv calls' bu b2 reqs rfl hrep sid0
    rw [hbuscope sid0, hbFscope sid0] at hinv
    unfold Finalize
    rw [hst2]
    cases hall : b2.execution_scopes.all (fun kv => scopeUpdateDone kv.2) with
    | false => simp
    | true =>
      exfalso
      have hdone := all_done_getScope hall sid0
      simp only [scopeUpdateDone, Bool.and_eq_true, beq_iff_eq] at hdone
      have hnodes : (getScope b2 sid0).nodes = (getScope R sid0).nodes := hinv.1
      have hbarr : (getScope b2 sid0).barriers = (getScope R sid0).barriers := hinv.2.1
      have hccb : (getScope b2 sid0).conditional_command_buffers
          = (getScope R sid0).conditional_command_buffers := hinv.2.2.1
      have heqn : nodeCount (scopePrims calls' sid0) = nodeCount (scopePrims calls sid0) := by
        have h1 := hdone.1.1
        rw [hinv.2.2.2.1, hnodes, hlen.1] at h1
        simpa [resetUpdateState] using h1
      have heqb : barrierCalls (scopePrims calls' sid0)
          = barrierCalls (scopePrims calls sid0) := by
        have h1 := hdone.1.2
        rw [hinv.2.2.2.2.1, hbarr, hlen.2.1] at h1
        simpa [resetUpdateState] using h1
      have hcclen : (getScope R sid0).conditional_command_buffers.length
          = (condShape (scopePrims calls sid0)).length := by
        have := congrArg List.length hlen.2.2.1
        simpa [condCounts] using this
      have heqcl : (condShape (scopePrims calls' sid0)).length
          = (condShape (scopePrims calls sid0)).length := by
        have h1 := hdone.2
        rw [hinv.2.2.2.2.2.1, hccb, hcclen] at h1
        simpa [resetUpdateState] using h1
      have heqc : condShape (scopePrims calls' sid0)
          = condShape (scopePrims calls sid0) := by
        have htk := hinv.2.2.2.2.2.2.1
        have hcc : condCounts (resetUpdateState (getScope R sid0))
            = condShape (scopePrims calls sid0) := by
          have : condCounts (resetUpdateState (getScope R sid0))
              = condCounts (getScope R sid0) := rfl
          rw [this, hlen.2.2.1]
        rw [hcc] at htk
        have hci0 : (resetUpdateState (getScope R sid0)).update_state.conditional_idx
            = 0 := rfl
        rw [hci0, List.drop_zero, heqcl, ← hlen.2.2.1] at htk
        rw [← htk, hlen.2.2.1, List.take_length]
      have heqk : nodeKinds (scopePrims calls' sid0)
          = nodeKinds (scopePrims calls sid0) := by
        have htk := hinv.2.2.2.2.2.2.2
        have hkk : scopeNodeKinds (resetUpdateState (getScope R sid0))
            = nodeKinds (scopePrims calls sid0) := by
          have : scopeNodeKinds (resetUpdateState (getScope R sid0))
              = scopeNodeKinds (getScope R sid0) := rfl
          rw [this, hlen.2.2.2.2]
        rw [hkk] at htk
        have hni0 : (resetUpdateState (getScope R sid0)).update_state.node_idx
            = 0 := rfl
        have heqkl : (nodeKinds (scopePrims calls' sid0)).length
            = (nodeKinds (scopePrims calls sid0)).length := by
          rw [length_nodeKinds, length_nodeKinds, heqn]
        rw [hni0, List.drop_zero, heqkl, List.take_length] at htk
        exact htk.symm
      rcases hdiff with h | h | h | h
      · exact h heqc
      · exact h heqn
      · exact h heqb
      · exact h heqk

/-- Witness for C4 at a concrete input: recording an `If` and replaying it as
a `While` — a kind-only difference with identical node, barrier and
conditional counts (the `If` condition node was created for the
`SetIfCondition` kernel, the replayed `While` needs a `SetWhileCondition`
node) — fails with a structural-mismatch error. -/
theorem update_structural_mismatch_witness :
    updatePass
        ((recordAndFinalize [ApiCall.ifThen 0]).toOption.getD
          (makeCommandBuffer Mode.kPrimary 0 true))
        [ApiCall.whileCall 0]
      = Except.error CmdBufError.structuralMismatch :=
  update_structural_mismatch [ApiCall.ifThen 0] [ApiCall.whileCall 0] 0
    (Or.inr (Or.inr (Or.inr (by decide)))) _ (by rfl)

/-- C5: every public recording operation invoked on a command buffer whose
state is `Finalized` (after `Finalize`, outside an update pass) returns an
invalid-state error and performs no recording. -/
theorem recording_requires_create_state (b : GpuCommandBuffer) (c : ApiCall)
    (h : b.state = State.kFinalized) :
    applyCall b c = Except.error CmdBufError.invalidState := by
  unfold applyCall
  rw [h]

/-- Witness for C5 at a concrete input: a `Launch` on a freshly finalized
buffer fails with an invalid-state error. -/
theorem recording_requires_create_state_witness :
    applyCall
        ((recordAndFinalize [ApiCall.launch 0]).toOption.getD
          (makeCommandBuffer Mode.kPrimary 0 true))
        (ApiCall.launch 0)
      = Except.error CmdBufError.invalidState :=
  recording_requires_create_state _ (ApiCall.launch 0) (by decide)

/-- C6: the `IfElse` condition-setting kernel assigns complementary truth
values to the two conditional handles from the single boolean predicate, so
on any graph invocation exactly one of the then-branch and else-branch nested
buffers executes: the then buffer when the predicate is true, the else buffer
when it is false. -/
theorem ifelse_complementary_handles (predicate : Bool) (then_buffer else_buffer : Nat) :
    (SetIfElseCondition predicate).1 = predicate ∧
    (SetIfElseCondition predicate).2 = !predicate ∧
    (SetIfElseCondition predicate).1 ≠ (SetIfElseCondition predicate).2 ∧
    ifElseExecutedBuffers predicate then_buffer else_buffer
      = (if predicate then [then_buffer] else [else_buffer]) ∧
    (ifElseExecutedBuffers predicate then_buffer else_buffer).length = 1 := by
  cases predicate <;>
    simp [SetIfElseCondition, ifElseExecutedBuffers, conditionalNodeFires]

theorem countRangeBeq (s : Nat) :
    ∀ n : Nat, ((List.range n).map (fun i => i == s)).count true
      = if s < n then 1 else 0 := by
  intro n
  induction n with
  | zero => simp
  | succ n ih =>
    rw [List.range_succ, List.map_append, List.count_append]
    rcases Nat.lt_trichotomy s n with h | h | h
    · have h2 : ¬ n = s := by omega
      have h3 : s < n + 1 := by omega
      simp [ih, h, h2, h3]
    · subst h
      have h2 : ¬ s < s := by omega
      have h3 : s < s + 1 := by omega
      simp [ih, h2, h3]
    · have h2 : ¬ s < n := by omega
      have h3 : ¬ n = s := by omega
      have h4 : ¬ s < n + 1 := by omega
      simp [ih, h2, h3, h4]

/-- C7: for every `Case` with a positive number of branches and every
device-resident index value, the condition-setting kernel leaves exactly one
conditional handle set (never zero, never several); when the index lies
outside `[0, branch_count)` the selected branch is deterministically the
default/last one, whose handle is set. -/
theorem case_out_of_range_default (branch_count : Nat) (index : Int)
    (hpos : 0 < branch_count) :
    SetCaseCondition branch_count index < branch_count ∧
    (caseHandleValues branch_count index).count true = 1 ∧
    ((index < 0 ∨ (branch_count : Int) ≤ index) →
      SetCaseCondition branch_count index = branch_count - 1 ∧
      (caseHandleValues branch_count index)[branch_count - 1]? = some true) := by
  have hsel : SetCaseCondition branch_count index < branch_count := by
    unfold SetCaseCondition
    by_cases h : 0 ≤ index ∧ index < (branch_count : Int)
    · rw [if_pos h]
      omega
    · rw [if_neg h]
      omega
  refine ⟨hsel, ?_, ?_⟩
  · unfold caseHandleValues
    rw [countRangeBeq]
    rw [if_pos hsel]
  · intro hout
    have hcond : ¬ (0 ≤ index ∧ index < (branch_count : Int)) := by
      rcases hout with h | h <;> omega
    have hdef : SetCaseCondition branch_count index = branch_count - 1 := by
      unfold SetCaseCondition
      rw [if_neg hcond]
    refine ⟨hdef, ?_⟩
    unfold caseHandleValues
    rw [List.getElem?_map, List.getElem?_range (by omega : branch_count - 1 < branch_count)]
    rw [hdef]
    simp

/-- Witness for C7 at a concrete input: a `Case` with three branches and
index `5` selects the default branch `2`, with exactly one handle set. -/
theorem case_out_of_range_default_witness :
    SetCaseCondition 3 5 = 2 ∧ (caseHandleValues 3 5).count true = 1 :=
  ⟨((case_out_of_range_default 3 5 (by decide)).2.2 (Or.inr (by decide))).1,
   (case_out_of_range_default 3 5 (by decide)).2.1⟩

/-- C8: the destructor releases the graph handle iff the buffer holds one and
owns it, and the executable handle iff the buffer holds one and owns it; a
buffer borrowing both releases nothing; and a buffer still in state `Create`
after any recording (never finalized, hence without an executable) releases
exactly its allocated graph. -/
theorem destructor_ownership (b : GpuCommandBuffer) (g e : Nat)
    (calls : List ApiCall) (graphId : Nat) :
    (ReleasedResource.graphResource g ∈ destroyCommandBuffer b
      ↔ b.graph = some g ∧ b.is_owned_graph = true) ∧
    (ReleasedResource.execResource e ∈ destroyCommandBuffer b
      ↔ b.exec = some e ∧ b.is_owned_graph_exec = true) ∧
    destroyCommandBuffer
        { b with is_owned_graph := false, is_owned_graph_exec := false } = [] ∧
    ((recordCalls (makeCommandBuffer Mode.kPrimary graphId true) calls).1.state
      = State.kCreate ∧
     (recordCalls (makeCommandBuffer Mode.kPrimary graphId true) calls).1.exec = none ∧
     destroyCommandBuffer (recordCalls (makeCommandBuffer Mode.kPrimary graphId true) calls).1
      = [ReleasedResource.graphResource graphId]) := by
  have hflds := recordCalls_fields calls (makeCommandBuffer Mode.kPrimary graphId true)
  refine ⟨?_, ?_, ?_, ?_, ?_, ?_⟩
  · unfold destroyCommandBuffer
    cases hbe : b.exec <;> cases hbg : b.graph <;>
      cases hoe : b.is_owned_graph_exec <;> cases hog : b.is_owned_graph <;> simp [eq_comm]
  · unfold destroyCommandBuffer
    cases hbe : b.exec <;> cases hbg : b.graph <;>
      cases hoe : b.is_owned_graph_exec <;> cases hog : b.is_owned_graph <;> simp [eq_comm]
  · unfold destroyCommandBuffer
    cases hbe : b.exec <;> cases hbg : b.graph <;> simp
  · exact hflds.1
  · exact hflds.2.2.2.1
  · unfold destroyCommandBuffer
    rw [hflds.2.2.2.1, hflds.2.1, hflds.2.2.1]
    simp [makeCommandBuffer]

/-- C9: a scoped temporary executable substitution restores the previous
executable handle and its ownership flag unconditionally when the scope
exits — for every body, including bodies that end in an error — so a
completed conditional-update recursion leaves the buffer's executable field
unchanged; the body itself runs with the temporary, non-owned executable. -/
theorem scoped_exec_restores (b : GpuCommandBuffer) (exec : Nat)
    (body : GpuCommandBuffer → GpuCommandBuffer × Except CmdBufError Unit) :
    (withScopedGraphExec b exec body).1.exec = b.exec ∧
    (withScopedGraphExec b exec body).1.is_owned_graph_exec = b.is_owned_graph_exec ∧
    (withScopedGraphExec b exec body).2
      = (body { b with exec := some exec, is_owned_graph_exec := false }).2 := by
  simp [withScopedGraphExec, scopedGraphExecEnter, scopedGraphExecExit]

/-- C10: the zero-argument introspection accessors return exactly the node
list and barrier list of the default execution scope
(`kDefaulExecutionScope`), and the per-scope accessors read the scope's
lists without mutating any state (they are pure functions of the buffer). -/
theorem default_scope_accessors (b : GpuCommandBuffer) :
    b.defaultNodes = b.nodesOf kDefaulExecutionScope ∧
    b.defaultBarriers = b.barriersOf kDefaulExecutionScope ∧
    (∀ id, b.nodesOf id = (getScope b id).nodes) ∧
    (∀ id, b.barriersOf id = (getScope b id).barriers) :=
  ⟨rfl, rfl, fun _ => rfl, fun _ => rfl⟩

end StreamExecutor
